import Mathlib

/-
Verification of the GitHub activity pipeline (github-monitor.py and
github-event-handler.py): a shallow embedding of the data model, the
filesystem state store, the monitoring cycle, the template resolver and
the duration parser, together with theorems settling the specification
claims about them.

Conventions of the embedding:
  - Python dicts that become JSON payloads are association lists of
    `String × JVal`; `dmerge` reproduces the semantics of a Python dict
    literal with `**` spreads (later keys overwrite in place).
  - Python string order (`<`, `<=`) is `charListLt` (lexicographic by
    code point), `str.strip()` is `pstrip`, `str.lower()` is `plower`.
  - The local filesystem tree is `FS`, an association list from
    `(repository, number)` to the marker files of that item directory.
  - Remote GraphQL results are inputs to the cycle functions; a fetch
    that raised inside the Python function and was caught is an
    `Except.error` input which the embedded function maps to the same
    empty result the Python code returns.
-/

/-- Membership in the regex class `\d` for one ASCII character
(code points 48 to 57, the digits). -/
def isDigitCh (c : Char) : Bool := 48 ≤ c.toNat && c.toNat ≤ 57

/-- Characters stripped by Python `str.strip()` with no arguments. -/
def isPySpace (c : Char) : Bool :=
  c == ' ' || c == '\t' || c == '\n' || c == '\r' || c == '\x0b' || c == '\x0c'

/-- Python `str.strip()`: drop leading and trailing whitespace. -/
def pstrip (s : String) : String :=
  String.mk (((s.data.dropWhile isPySpace).reverse.dropWhile isPySpace).reverse)

/-- Python `str.lower()` on one ASCII character: shift an upper-case
letter (code points 65 to 90) down by 32, leave everything else alone. -/
def plowerChar (c : Char) : Char :=
  if 65 ≤ c.toNat && c.toNat ≤ 90 then Char.ofNat (c.toNat + 32) else c

/-- Python `str.lower()` restricted to ASCII, which is all the pipeline uses. -/
def plower (s : String) : String :=
  String.mk (s.data.map plowerChar)

/-- Lexicographic comparison of character lists by code point; this is the
order Python uses for `str < str`. -/
def charListLt : List Char → List Char → Bool
  | [], [] => false
  | [], _ :: _ => true
  | _ :: _, [] => false
  | a :: as, b :: bs => if a < b then true else if b < a then false else charListLt as bs

/-- Python `a < b` on strings. -/
def strLt (a b : String) : Bool := charListLt a.data b.data

/-- Python `a <= b` on strings (total order, so `a <= b` iff `¬ b < a`). -/
def strLe (a b : String) : Bool := !(charListLt b.data a.data)

/-- JSON values, the codomain of the event payload dictionaries. -/
inductive JVal where
  | str (s : String)
  | num (n : Int)
  | bool (b : Bool)
  | null
  | arr (xs : List JVal)
  | obj (kvs : List (String × JVal))

/-- Encode an optional string the way `json` serializes `None`. -/
def optStr : Option String → JVal
  | some s => .str s
  | none => .null

/-- Insert a key into a Python dict represented as an association list:
an existing key is overwritten in place, a new key is appended. -/
def dinsert (kvs : List (String × JVal)) (k : String) (v : JVal) : List (String × JVal) :=
  if kvs.any (fun p => p.1 == k) then
    kvs.map (fun p => if p.1 == k then (k, v) else p)
  else
    kvs ++ [(k, v)]

/-- Python dict-literal semantics for `{..base, **extra}`: the pairs of
`extra` are inserted into `base` left to right. -/
def dmerge (base extra : List (String × JVal)) : List (String × JVal) :=
  extra.foldl (fun acc p => dinsert acc p.1 p.2) base

/-- Look a key up in a payload dictionary. -/
def jlookup : List (String × JVal) → String → Option JVal
  | [], _ => none
  | (k', v) :: rest, k => if k' == k then some v else jlookup rest k

/-- A parsed top-level comment, the output shape of `_parse_comment_node`
(github-monitor.py, lines 583-609); the `author` of the comment and of each
reaction already carries the `"ghost"` fallback the parser applies. -/
structure Comment where
  id : String
  database_id : Int
  url : String
  author : String
  author_association : String
  body : String
  body_text : String
  created_at : String
  updated_at : String
  published_at : Option String
  last_edited_at : Option String
  is_minimized : Bool
  minimized_reason : Option String
  reactions_total : Int
  reactions_items : List (String × String)

/-- The dictionary `_parse_comment_node` builds, with its exact keys. -/
def commentDict (c : Comment) : List (String × JVal) :=
  [("id", .str c.id),
   ("database_id", .num c.database_id),
   ("url", .str c.url),
   ("author", .str c.author),
   ("author_association", .str c.author_association),
   ("body", .str c.body),
   ("body_text", .str c.body_text),
   ("created_at", .str c.created_at),
   ("updated_at", .str c.updated_at),
   ("published_at", optStr c.published_at),
   ("last_edited_at", optStr c.last_edited_at),
   ("is_minimized", .bool c.is_minimized),
   ("minimized_reason", optStr c.minimized_reason),
   ("reactions", .obj
     [("total_count", .num c.reactions_total),
      ("items", .arr (c.reactions_items.map
        (fun r => .obj [("content", .str r.1), ("user", .str r.2)])))])]

/-- A parsed open issue or pull request, the output shape of
`_parse_issue_node` / `_parse_pr_node` (github-monitor.py, lines 262-299).
The `type` field is `"issue"` or `"pr"` as set by the parser; the four
trailing fields are only meaningful when `type = "pr"`. -/
structure Item where
  type : String
  number : Int
  title : String
  body : String
  url : String
  state : String
  created_at : String
  updated_at : String
  closed_at : Option String
  author : String
  assignees : List String
  labels : List String
  merged_at : Option String
  is_draft : Bool
  mergeable : String
  review_decision : Option String

/-- The dictionary `_parse_issue_node` builds, with its exact keys. -/
def issueDict (it : Item) : List (String × JVal) :=
  [("type", .str "issue"),
   ("number", .num it.number),
   ("title", .str it.title),
   ("body", .str it.body),
   ("url", .str it.url),
   ("state", .str it.state),
   ("created_at", .str it.created_at),
   ("updated_at", .str it.updated_at),
   ("closed_at", optStr it.closed_at),
   ("author", .str it.author),
   ("assignees", .arr (it.assignees.map .str)),
   ("labels", .arr (it.labels.map .str))]

/-- The dictionary `_parse_pr_node` builds, with its exact keys. -/
def prDict (it : Item) : List (String × JVal) :=
  [("type", .str "pr"),
   ("number", .num it.number),
   ("title", .str it.title),
   ("body", .str it.body),
   ("url", .str it.url),
   ("state", .str it.state),
   ("created_at", .str it.created_at),
   ("updated_at", .str it.updated_at),
   ("closed_at", optStr it.closed_at),
   ("merged_at", optStr it.merged_at),
   ("author", .str it.author),
   ("assignees", .arr (it.assignees.map .str)),
   ("labels", .arr (it.labels.map .str)),
   ("is_draft", .bool it.is_draft),
   ("mergeable", .str it.mergeable),
   ("review_decision", optStr it.review_decision)]

/-- The `item_data` dictionary attached to an item, as produced by
whichever parser matches its `type` discriminant. -/
def itemDict (it : Item) : List (String × JVal) :=
  if it.type == "pr" then prDict it else issueDict it

/-- Envelope of `github.<kind>.new` events: `{"repository": repository,
**item_data}` (github-monitor.py, lines 893-896). -/
def newEventData (repository : String) (it : Item) : List (String × JVal) :=
  dmerge [("repository", .str repository)] (itemDict it)

/-- Envelope of `github.<kind>.updated` events: `{"repository": repository,
"number": number, **item_data}` (github-monitor.py, lines 956-960); the
spread overwrites the string `number` with the item's integer. -/
def updatedEventData (repository number : String) (it : Item) : List (String × JVal) :=
  dmerge [("repository", .str repository), ("number", .str number)] (itemDict it)

/-- Envelope of `github.<kind>.closed` events (github-monitor.py,
lines 990-993). -/
def closedEventData (repository number : String) : List (String × JVal) :=
  [("repository", .str repository), ("number", .str number)]

/-- Envelope of `github.issue.comment.new` events: `{"repository": ...,
"issue_number": issue_number, **comment}` (github-monitor.py,
lines 1221-1225). -/
def issueCommentEventData (repository issue_number : String) (c : Comment) :
    List (String × JVal) :=
  dmerge [("repository", .str repository), ("issue_number", .str issue_number)]
    (commentDict c)

/-- Envelope of `github.pr.comment.new` events: `{"repository": ...,
"number": pr_number, **comment}` (github-monitor.py, lines 1299-1303). -/
def prCommentEventData (repository pr_number : String) (c : Comment) :
    List (String × JVal) :=
  dmerge [("repository", .str repository), ("number", .str pr_number)]
    (commentDict c)

/-- Unit characters accepted by the duration regex `(\d+)([dhms])`. -/
def unitChars : List Char := ['d', 'h', 'm', 's']

/-- Seconds per unit, the `units` table of `parse_duration`
(github-monitor.py, lines 108-113). -/
def unitSecs : Char → Nat
  | 'd' => 86400
  | 'h' => 3600
  | 'm' => 60
  | 's' => 1
  | _ => 0

/-- Python `int` on a string of decimal digits. -/
def natOfDigits (cs : List Char) : Nat :=
  cs.foldl (fun a c => a * 10 + (c.toNat - '0'.toNat)) 0

/-- Scanner for `re.findall(r'(\d+)([dhms])', s)`: `acc` is the reversed
pending run of digits. A maximal digit run immediately followed by a unit
letter yields one match and scanning resumes after the unit; a digit run
followed by anything else yields nothing (no shorter run can match either,
because the character after a shorter run is a digit, not a unit), and
scanning resumes at the character that ended the run. -/
def findAllGo (acc : List Char) : List Char → List (String × Char)
  | [] => []
  | c :: rest =>
    if isDigitCh c then findAllGo (c :: acc) rest
    else if !acc.isEmpty && unitChars.contains c then
      (String.mk acc.reverse, c) :: findAllGo [] rest
    else findAllGo [] rest

/-- The match list of `re.findall(r'(\d+)([dhms])', s)`. -/
def findAll (cs : List Char) : List (String × Char) := findAllGo [] cs

/-- Embedding of `parse_duration` (github-monitor.py, lines 76-118):
lowercase the input, collect the `(\d+)([dhms])` matches, reject when there
is no match or when the matches do not reconstruct the whole lowered
string, and otherwise sum value times unit seconds. -/
def parse_duration (duration_str : String) : Except String Nat :=
  if duration_str == "" then
    .error "Duration string cannot be empty"
  else
    let lowered := plower duration_str
    let ms := findAll lowered.data
    if ms.isEmpty then
      .error ("Invalid duration format: " ++ duration_str)
    else
      let reconstructed := String.join (ms.map (fun p => p.1 ++ String.mk [p.2]))
      if reconstructed != lowered then
        .error ("Invalid duration format: " ++ duration_str)
      else
        .ok (ms.foldl (fun acc p => acc + natOfDigits p.1.data * unitSecs p.2) 0)

/-- The canonical composition `N1u1N2u2...` of a list of duration
components, each a digit string paired with a unit letter. -/
def concatComps : List (String × Char) → String
  | [] => ""
  | p :: rest => p.1 ++ String.mk [p.2] ++ concatComps rest

/-- The `after` pagination clause interpolated into every query builder:
empty when the cursor is falsy. -/
def after_clause_of (cursor : Option String) : String :=
  match cursor with
  | some c => if c == "" then "" else ", after: \"" ++ c ++ "\""
  | none => ""

/-- The `filterBy` clause `get_open_issues` builds when `updated_since` is
truthy (github-monitor.py, lines 378-380); it hands this same string to
both query builders. -/
def filter_clause_of (updated_since : Option String) : String :=
  match updated_since with
  | some s => if s == "" then "" else ", filterBy: \x7bsince: \"" ++ s ++ "\"\x7d"
  | none => ""

/-- Embedding of `_build_issue_query` (github-monitor.py, lines 178-215):
the GraphQL text for one page of open issues. -/
def _build_issue_query (owner repo filter_clause : String) (cursor : Option String) :
    String :=
  let after_clause := after_clause_of cursor
  "\n    \x7b\n      repository(owner: \"" ++ owner ++ "\", name: \"" ++ repo ++
  "\") \x7b\n        issues(first: 100, states: OPEN" ++ after_clause ++ filter_clause ++
  ") \x7b\n          pageInfo \x7b\n            hasNextPage\n            endCursor\n" ++
  "          \x7d\n          nodes \x7b\n            number\n            title\n" ++
  "            body\n            url\n            state\n            createdAt\n" ++
  "            updatedAt\n            closedAt\n            author \x7b\n" ++
  "              login\n            \x7d\n            assignees(first: 10) \x7b\n" ++
  "              nodes \x7b\n                login\n              \x7d\n" ++
  "            \x7d\n            labels(first: 10) \x7b\n              nodes \x7b\n" ++
  "                name\n              \x7d\n            \x7d\n          \x7d\n" ++
  "        \x7d\n      \x7d\n    \x7d\n    "

/-- Embedding of `_build_pr_query` (github-monitor.py, lines 218-259): the
GraphQL text for one page of open pull requests; note that it interpolates
whatever `filter_clause` it receives. -/
def _build_pr_query (owner repo filter_clause : String) (cursor : Option String) :
    String :=
  let after_clause := after_clause_of cursor
  "\n    \x7b\n      repository(owner: \"" ++ owner ++ "\", name: \"" ++ repo ++
  "\") \x7b\n        pullRequests(first: 100, states: OPEN" ++ after_clause ++
  filter_clause ++
  ") \x7b\n          pageInfo \x7b\n            hasNextPage\n            endCursor\n" ++
  "          \x7d\n          nodes \x7b\n            number\n            title\n" ++
  "            body\n            url\n            state\n            createdAt\n" ++
  "            updatedAt\n            closedAt\n            mergedAt\n" ++
  "            author \x7b\n              login\n            \x7d\n" ++
  "            assignees(first: 10) \x7b\n              nodes \x7b\n" ++
  "                login\n              \x7d\n            \x7d\n" ++
  "            labels(first: 10) \x7b\n              nodes \x7b\n" ++
  "                name\n              \x7d\n            \x7d\n            isDraft\n" ++
  "            mergeable\n            reviewDecision\n          \x7d\n" ++
  "        \x7d\n      \x7d\n    \x7d\n    "

/-- The first-page issue query `get_open_issues` issues (github-monitor.py,
lines 384-394): the filter clause built from `updated_since` is passed to
`_build_issue_query`. -/
def get_open_issues_issue_query (owner repo : String) (updated_since : Option String) :
    String :=
  _build_issue_query owner repo (filter_clause_of updated_since) none

/-- The first-page pull-request query `get_open_issues` issues
(github-monitor.py, lines 397-407): the same filter clause built from
`updated_since` is passed to `_build_pr_query`. -/
def get_open_issues_pr_query (owner repo : String) (updated_since : Option String) :
    String :=
  _build_pr_query owner repo (filter_clause_of updated_since) none

/-- Does `pat` occur at the head of `hay`. -/
def startsWithChars : List Char → List Char → Bool
  | [], _ => true
  | _ :: _, [] => false
  | p :: ps, c :: cs => p == c && startsWithChars ps cs

/-- Does `pat` occur anywhere in `hay`. -/
def containsChars (hay pat : List Char) : Bool :=
  match hay with
  | [] => startsWithChars pat []
  | _ :: rest => startsWithChars pat hay || containsChars rest pat

/-- Substring test on strings. -/
def containsSubstr (hay pat : String) : Bool := containsChars hay.data pat.data

/-- The templates directory tree of the Handler: which directories exist,
and the content of each existing file, addressed by path segments relative
to the templates root. `rootHere` is false when `--templates-dir` was not
given or points at a missing directory. -/
structure TemplatesFS where
  rootHere : Bool
  dirs : List (List String)
  files : List (List String × String)

/-- Does this directory exist. -/
def hasDir (t : TemplatesFS) (p : List String) : Bool := t.dirs.contains p

/-- Content of a file, when it exists. -/
def readFileAt (t : TemplatesFS) (p : List String) : Option String :=
  t.files.lookup p

/-- Python `repository.split("/", 1)`: `some (owner, rest)` when the string
contains a slash, `none` when the split yields a single part and the
two-name unpacking in `find_template` raises `ValueError`. -/
def splitSlash (s : String) : Option (String × String) :=
  match s.data.findIdx? (fun c => c == '/') with
  | some i => some (String.mk (s.data.take i), String.mk (s.data.drop (i + 1)))
  | none => none

/-- Walk the template search paths in order: skip a level whose directory
does not exist, return the template file of the first level that has it,
fall through when the directory exists but the file does not
(github-event-handler.py, lines 145-155). -/
def firstTemplateFile (t : TemplatesFS) : List (List String) → String → Option (List String)
  | [], _ => none
  | p :: rest, fname =>
    if hasDir t p then
      if (readFileAt t (p ++ [fname])).isSome then some (p ++ [fname])
      else firstTemplateFile t rest fname
    else firstTemplateFile t rest fname

/-- Embedding of `find_template` (github-event-handler.py, lines 115-155):
`Except.error` models the `ValueError` that `owner, repo = split("/", 1)`
raises on a slash-free repository and that the message handler's generic
`except` turns into a `nak`. -/
def find_template (t : TemplatesFS) (repository event_name : String) :
    Except Unit (Option (List String)) :=
  if !t.rootHere then .ok none
  else
    match splitSlash repository with
    | none => .error ()
    | some (owner, repo) =>
      let fname := event_name ++ ".md"
      .ok (firstTemplateFile t [[owner, repo], [owner, ".default"], [".default"]] fname)

/-- The observable behaviour of `invoke_claude` (github-event-handler.py,
lines 158-275) given the resolved template's content: whether the LLM child
was actually spawned, and the boolean the function returns. An empty
(whitespace-only) template skips the spawn and reports success; a read
failure is caught by the function's generic handler and reports failure;
otherwise the result is the child's success. -/
def invoke_claude (t : TemplatesFS) (template_path : List String) (llmOk : Bool) :
    Bool × Bool :=
  match readFileAt t template_path with
  | some content => if pstrip content == "" then (false, true) else (true, llmOk)
  | none => (false, false)

/-- Acknowledgement decision the message handler takes for one message. -/
inductive Outcome where
  | ack
  | nak
  | term
deriving DecidableEq

/-- What processing one event through `_invoke_claude_with_template` and
the surrounding `message_handler` produces. -/
structure HandleRes where
  template : Option (List String)
  llmInvoked : Bool
  outcome : Outcome

/-- Embedding of `EventHandler._invoke_claude_with_template` followed by the
acknowledgement of `message_handler` (github-event-handler.py, lines 305-328
and 474-507): a missing Claude CLI or a missing template logs and falls
through to the `ack`; a resolution error (the `ValueError` case) propagates
to the generic `except` and `nak`s; an LLM failure is only logged, so the
message is still acknowledged. -/
def handle_event_with_template (t : TemplatesFS) (claude_available : Bool)
    (repository event_name : String) (llmOk : Bool) : HandleRes :=
  if !claude_available then
    { template := none, llmInvoked := false, outcome := .ack }
  else
    match find_template t repository event_name with
    | .error _ => { template := none, llmInvoked := false, outcome := .nak }
    | .ok none => { template := none, llmInvoked := false, outcome := .ack }
    | .ok (some p) =>
      let r := invoke_claude t p llmOk
      { template := some p, llmInvoked := r.1, outcome := .ack }

/-- Which comment watermark a check concerns (`check_type` in the source). -/
inductive CKind where
  | issue
  | pr
deriving DecidableEq

/-- The marker files of one item directory
`<base>/<owner>/<name>/<number>/`: whether the directory exists, the raw
content of `.type`, `.last_checked`, `.last_issue_comment_check` and
`.last_pr_comment_check` when present, and the `.active` flag. -/
structure ItemState where
  dirExists : Bool := false
  typeFile : Option String := none
  lastChecked : Option String := none
  issueCommentCheck : Option String := none
  prCommentCheck : Option String := none
  active : Bool := false

/-- An item is addressed by `(repository, number)` with `repository` in
`owner/name` form and `number` the directory name. -/
abbrev Key := String × String

/-- The base-path tree as an association list of item directories. -/
abbrev FS := List (Key × ItemState)

/-- State of the item directory at a key; a key not in the tree is an
absent directory with no marker files. -/
def fsGet : FS → Key → ItemState
  | [], _ => {}
  | (k', s) :: rest, k => if k' = k then s else fsGet rest k

/-- Update the item directory at a key, creating the entry when absent. -/
def fsSet : FS → Key → (ItemState → ItemState) → FS
  | [], k, g => [(k, g {})]
  | (k', s) :: rest, k, g =>
    if k' = k then (k', g s) :: rest else (k', s) :: fsSet rest k g

/-- Which marker file a write touched. -/
inductive MFile where
  | lastCheckedF
  | typeF
  | issueCheckF
  | prCheckF
deriving DecidableEq

/-- One successful marker-file write performed during monitoring. -/
structure WriteRec where
  repo : String
  number : String
  file : MFile
  value : String
deriving DecidableEq

/-- A published stream message: subject and JSON payload. -/
abbrev Event := String × List (String × JVal)

/-- Monitor state threaded through a cycle: the filesystem tree, the
events that actually reached the stream, and the log of marker writes. -/
structure MState where
  fs : FS
  events : List Event
  writes : List WriteRec

/-- Embedding of `publish_event` (github-monitor.py, lines 789-796): the
publish is attempted and any failure is caught and logged inside the
function, so control always returns normally; only a successful publish
puts the event on the stream. -/
def doPublish (publishOk : Bool) (st : MState) (subj : String)
    (data : List (String × JVal)) : MState :=
  if publishOk then { st with events := st.events ++ [(subj, data)] } else st

/-- Embedding of `save_last_checked` (lines 515-533): creates the item
directory (`mkdir(parents=True)`) and writes `.last_checked`. -/
def doSaveLastChecked (st : MState) (k : Key) (t : String) : MState :=
  { st with
    fs := fsSet st.fs k (fun s => { s with dirExists := true, lastChecked := some t }),
    writes := st.writes ++ [⟨k.1, k.2, .lastCheckedF, t⟩] }

/-- Embedding of `save_type_to_file` (lines 715-733): creates the item
directory and writes the lowercased value to `.type`. -/
def doSaveType (st : MState) (k : Key) (v : String) : MState :=
  { st with
    fs := fsSet st.fs k (fun s => { s with dirExists := true, typeFile := some (plower v) }),
    writes := st.writes ++ [⟨k.1, k.2, .typeF, plower v⟩] }

/-- Read the comment watermark file of one kind. -/
def commentFld (s : ItemState) : CKind → Option String
  | .issue => s.issueCommentCheck
  | .pr => s.prCommentCheck

/-- Set the comment watermark file of one kind. -/
def setCommentFld (s : ItemState) (kind : CKind) (t : String) : ItemState :=
  match kind with
  | .issue => { s with issueCommentCheck := some t }
  | .pr => { s with prCommentCheck := some t }

/-- The write-log tag of a comment watermark file. -/
def cfile : CKind → MFile
  | .issue => .issueCheckF
  | .pr => .prCheckF

/-- Embedding of `save_last_comment_check` (lines 470-487): plain
`write_text` with no `mkdir`, so when the directory does not exist the
write raises, is caught and logged, and nothing is persisted. -/
def doSaveCommentCheck (st : MState) (k : Key) (kind : CKind) (t : String) : MState :=
  if (fsGet st.fs k).dirExists then
    { st with
      fs := fsSet st.fs k (fun s => setCommentFld s kind t),
      writes := st.writes ++ [⟨k.1, k.2, cfile kind, t⟩] }
  else st

/-- Embedding of `get_last_checked` (lines 490-512): stripped content of
`.last_checked`, `none` when the file is missing. -/
def get_last_checked (fs : FS) (k : Key) : Option String :=
  ((fsGet fs k).lastChecked).map pstrip

/-- Embedding of `get_last_comment_check` (lines 444-467). -/
def get_last_comment_check (fs : FS) (k : Key) (kind : CKind) : Option String :=
  (commentFld (fsGet fs k) kind).map pstrip

/-- Embedding of `get_type_from_file` (lines 689-712): the stripped,
lowercased content when it is exactly `issue` or `pr`, `none` otherwise. -/
def get_type_from_file (fs : FS) (k : Key) : Option String :=
  match (fsGet fs k).typeFile with
  | some raw =>
    let c := plower (pstrip raw)
    if c == "issue" || c == "pr" then some c else none
  | none => none

/-- Embedding of `get_repository_last_comment_check` (lines 1012-1044):
the minimum stripped comment watermark over the item directories of one
repository. -/
def get_repository_last_comment_check (fs : FS) (repository : String) (kind : CKind) :
    Option String :=
  fs.foldl (fun acc e =>
    if e.1.1 == repository && e.2.dirExists then
      match commentFld e.2 kind with
      | some raw =>
        let ts := pstrip raw
        match acc with
        | none => some ts
        | some earliest => if strLt ts earliest then some ts else some earliest
      | none => acc
    else acc) none

/-- Embedding of `find_active_issues` (lines 121-175): every existing item
directory of a tracked repository, restricted to those with `.active` when
`active_only` is set. The walk is over the directory keys of the tree,
with each directory's state read through `fsGet`. -/
def find_active_issues (fs : FS) (active_only : Bool) (repositories : List String) :
    List Key :=
  (fs.map Prod.fst).filterMap (fun k =>
    if (fsGet fs k).dirExists && repositories.contains k.1
        && (!active_only || (fsGet fs k).active) then
      some k
    else none)

/-- Embedding of `is_pull_request` (lines 736-771): answer from the cached
`.type` when it is readable, otherwise probe the remote PR view and cache
the probe's answer. -/
def is_pull_request (probe : Key → Bool) (st : MState) (k : Key) : Bool × MState :=
  match get_type_from_file st.fs k with
  | some t => (t == "pr", st)
  | none =>
    let isPr := probe k
    (isPr, doSaveType st k (if isPr then "pr" else "issue"))

/-- Body of the discovery loop of `monitor_repositories` (lines 881-906):
for an item whose directory does not exist yet, publish
`github.<kind>.new` and write `.last_checked` and `.type`. -/
def discover_item (publishOk dry_run : Bool) (current_time repository : String)
    (st : MState) (entry : String × Item) : MState :=
  let number := entry.1
  let item := entry.2
  if (fsGet st.fs (repository, number)).dirExists then st
  else
    let event_subject := if item.type == "pr" then "github.pr.new" else "github.issue.new"
    let event_data := newEventData repository item
    if dry_run then st
    else
      let st1 := doPublish publishOk st event_subject event_data
      let st2 := doSaveLastChecked st1 (repository, number) current_time
      doSaveType st2 (repository, number) item.type

/-- Embedding of `monitor_repositories` (lines 840-910): one discovery
pass over the tracked repositories with the open-item sets the remote
returned (a failed or empty fetch is the empty list, which the code skips
with a log line). -/
def monitor_repositories (publishOk dry_run : Bool) (current_time : String)
    (repositories : List String) (openF : String → List (String × Item))
    (st : MState) : MState :=
  repositories.foldl
    (fun st repo =>
      (openF repo).foldl (discover_item publishOk dry_run current_time repo) st)
    st

/-- Append a number to its repository group, preserving dict insertion
order as the Python grouping loops do. -/
def addToGroup : List (String × List String) → String → String → List (String × List String)
  | [], r, n => [(r, [n])]
  | (r', ns) :: rest, r, n =>
    if r' == r then (r', ns ++ [n]) :: rest else (r', ns) :: addToGroup rest r n

/-- The `issues_by_repo` grouping used by `process_active_issues`,
`monitor_issue_comments` and `monitor_pr_comments`. -/
def groupByRepo (active : List Key) : List (String × List String) :=
  active.foldl (fun acc e => addToGroup acc e.1 e.2) []

/-- The `has_update` expression of `process_active_issues` (line 954):
`last_check is None or (updated_at and updated_at > last_check)`, with
Python truthiness of the two strings made explicit. -/
def has_update_of (last_check : Option String) (updated_at : String) : Bool :=
  last_check.isNone ||
    (updated_at != "" && (match last_check with
      | some lc => strLt lc updated_at
      | none => true))

/-- Body of the per-item loop of `process_active_issues` (lines 942-1007):
an item still in the open set publishes `github.<kind>.updated` exactly
when it has no readable `.last_checked` or was updated strictly after it,
and `.last_checked` is rewritten either way; an item no longer open
publishes `github.<kind>.closed` using the cached `.type` and also
rewrites `.last_checked`. -/
def process_item (publishOk dry_run : Bool) (current_time repository : String)
    (open_items : List (String × Item)) (st : MState) (number : String) : MState :=
  match open_items.lookup number with
  | some item =>
    let last_check := get_last_checked st.fs (repository, number)
    let updated_at := item.updated_at
    let has_update := has_update_of last_check updated_at
    let event_data := updatedEventData repository number item
    let event_subject := if item.type == "pr"
      then (if has_update then some "github.pr.updated" else none)
      else (if has_update then some "github.issue.updated" else none)
    if dry_run then st
    else
      let st1 := match event_subject with
        | some subj => doPublish publishOk st subj event_data
        | none => st
      doSaveLastChecked st1 (repository, number) current_time
  | none =>
    let cached_type := get_type_from_file st.fs (repository, number)
    let event_data := closedEventData repository number
    let event_subject :=
      if cached_type == some "pr" then "github.pr.closed" else "github.issue.closed"
    if dry_run then st
    else
      let st1 := doPublish publishOk st event_subject event_data
      doSaveLastChecked st1 (repository, number) current_time

/-- Embedding of `process_active_issues` (lines 913-1009): group the
active items by repository, fetch each repository's open set once, skip a
repository whose fetch came back empty while items were expected, and run
the per-item body over the rest. -/
def process_active_issues (publishOk dry_run : Bool) (current_time : String)
    (openF : String → List (String × Item)) (st : MState) (active : List Key) : MState :=
  (groupByRepo active).foldl
    (fun st grp =>
      let repository := grp.1
      let numbers := grp.2
      let open_items := openF repository
      if open_items.isEmpty && !numbers.isEmpty then st
      else numbers.foldl (process_item publishOk dry_run current_time repository open_items) st)
    st

/-- Embedding of `get_all_repository_comments` (lines 1047-1162): a remote
failure is caught and becomes the empty dictionary; otherwise each open
item keeps the comments updated strictly after `updated_since` (when that
is truthy) and items left with no comments are dropped. -/
def get_all_repository_comments (remote : Except Unit (List (String × List Comment)))
    (updated_since : Option String) : List (String × List Comment) :=
  match remote with
  | .error _ => []
  | .ok items =>
    (items.map (fun p => (p.1, p.2.filter (fun c =>
      match updated_since with
      | some t => if t == "" then true else !(strLe c.updated_at t)
      | none => true)))).filter (fun p => !p.2.isEmpty)

/-- The comment envelope for one kind. -/
def commentEventData (kind : CKind) (repository number : String) (c : Comment) :
    List (String × JVal) :=
  match kind with
  | .issue => issueCommentEventData repository number c
  | .pr => prCommentEventData repository number c

/-- The comment event subject for one kind. -/
def commentSubject : CKind → String
  | .issue => "github.issue.comment.new"
  | .pr => "github.pr.comment.new"

/-- Body of the per-item comment loop of `monitor_issue_comments` /
`monitor_pr_comments` (lines 1212-1231 and 1290-1309): publish one event
per comment whose `updated_at` is strictly newer than the item's own
comment watermark. -/
def comment_check_item (publishOk dry_run : Bool) (kind : CKind) (repository : String)
    (all_comments : List (String × List Comment)) (st : MState) (number : String) :
    MState :=
  let comments := (all_comments.lookup number).getD []
  comments.foldl (fun st c =>
    let item_last_check := get_last_comment_check st.fs (repository, number) kind
    if (match item_last_check with
        | some t => t != "" && strLe c.updated_at t
        | none => false) then st
    else
      if dry_run then st
      else doPublish publishOk st (commentSubject kind) (commentEventData kind repository number c))
    st

/-- One repository group of `monitor_issue_comments` / `monitor_pr_comments`
(lines 1195-1238 and 1273-1316): fetch all comments since the repository's
earliest watermark, publish the surviving ones for each listed item, then
unconditionally rewrite every listed item's comment watermark with the
function's captured current time. -/
def monitor_comments_repo (publishOk dry_run : Bool) (kind : CKind) (current_time : String)
    (commentsF : String → Except Unit (List (String × List Comment)))
    (st : MState) (grp : String × List String) : MState :=
  let repository := grp.1
  let numbers := grp.2
  let last_check := get_repository_last_comment_check st.fs repository kind
  let all_comments := get_all_repository_comments (commentsF repository) last_check
  let st1 := if !all_comments.isEmpty then
      numbers.foldl (comment_check_item publishOk dry_run kind repository all_comments) st
    else st
  if dry_run then st1
  else numbers.foldl (fun st n => doSaveCommentCheck st (repository, n) kind current_time) st1

/-- Embedding of `monitor_issue_comments` / `monitor_pr_comments`
(lines 1165-1318), parameterized by the watermark kind. -/
def monitor_comments (publishOk dry_run : Bool) (kind : CKind) (current_time : String)
    (commentsF : String → Except Unit (List (String × List Comment)))
    (st : MState) (active : List Key) : MState :=
  (groupByRepo active).foldl
    (monitor_comments_repo publishOk dry_run kind current_time commentsF) st

/-- The issue/PR split of `run_monitoring_cycle` (lines 1367-1372), which
runs `is_pull_request` per scanned item and may cache a probed `.type`. -/
def classify_step (probe : Key → Bool) (acc : MState × List Key × List Key)
    (k : Key) : MState × List Key × List Key :=
  let r := is_pull_request probe acc.1 k
  if r.1 then (r.2, acc.2.1, acc.2.2 ++ [k]) else (r.2, acc.2.1 ++ [k], acc.2.2)

def classify_items (probe : Key → Bool) (st : MState) (items : List Key) :
    MState × List Key × List Key :=
  items.foldl (classify_step probe) (st, [], [])

/-- The monitor options relevant to one cycle. -/
structure Args where
  repositories : List String
  dry_run : Bool
  monitor_issues : Bool
  monitor_prs : Bool
  monitor_issue_comments : Bool
  monitor_pr_comments : Bool
  active_only : Bool

/-- The environment of one cycle: the remote responses each fetch would
produce, the PR-probe answers, whether publishes succeed, and the value
`datetime.now` returns at the head of each of the six monitoring functions
that capture a timestamp (lines 863, 921, 1185 and 1263; each function
captures its own). -/
structure World where
  discoverIssues : String → List (String × Item)
  discoverPrs : String → List (String × Item)
  openIssues : String → List (String × Item)
  openPrs : String → List (String × Item)
  issueComments : String → Except Unit (List (String × List Comment))
  prComments : String → Except Unit (List (String × List Comment))
  probeIsPr : Key → Bool
  publishOk : Bool
  tDiscIssues : String
  tDiscPrs : String
  tProcIssues : String
  tProcPrs : String
  tComIssues : String
  tComPrs : String

/-- Embedding of `run_monitoring_cycle` (lines 1321-1402): discovery for
issues then PRs, the active scan and classification, the update/closed
pass for issues then PRs, then the two comment passes, each phase guarded
by its flag and by the emptiness checks of the source. -/
def run_monitoring_cycle (a : Args) (w : World) (st : MState) : MState :=
  let st1 := if a.monitor_issues then
      monitor_repositories w.publishOk a.dry_run w.tDiscIssues a.repositories w.discoverIssues st
    else st
  let st2 := if a.monitor_prs then
      monitor_repositories w.publishOk a.dry_run w.tDiscPrs a.repositories w.discoverPrs st1
    else st1
  let need := a.monitor_issues || a.monitor_prs ||
    a.monitor_issue_comments || a.monitor_pr_comments
  let scanned := if need then find_active_issues st2.fs a.active_only a.repositories else []
  let cls := if scanned.isEmpty then (st2, ([] : List Key), ([] : List Key))
    else classify_items w.probeIsPr st2 scanned
  let st3 := cls.1
  let activeIssues := cls.2.1
  let activePrs := cls.2.2
  let st4 := if a.monitor_issues && !activeIssues.isEmpty then
      process_active_issues w.publishOk a.dry_run w.tProcIssues w.openIssues st3 activeIssues
    else st3
  let st5 := if a.monitor_prs && !activePrs.isEmpty then
      process_active_issues w.publishOk a.dry_run w.tProcPrs w.openPrs st4 activePrs
    else st4
  let st6 := if a.monitor_issue_comments && !activeIssues.isEmpty then
      monitor_comments w.publishOk a.dry_run .issue w.tComIssues w.issueComments st5 activeIssues
    else st5
  if a.monitor_pr_comments && !activePrs.isEmpty then
    monitor_comments w.publishOk a.dry_run .pr w.tComPrs w.prComments st6 activePrs
  else st6

/-- The filesystem-and-write-log part of the monitor state; the publish
outcome can only influence the `events` component. -/
def stateCore (st : MState) : FS × List WriteRec := (st.fs, st.writes)

/-- The write log only ever grows; `WritesExt Q st st'` says `st'` extends
`st`'s log by records all satisfying `Q`. -/
def WritesExt (Q : WriteRec → Prop) (st st' : MState) : Prop :=
  ∃ d, st'.writes = st.writes ++ d ∧ ∀ r ∈ d, Q r

/-- Well-formedness of one duration component list: nonempty digit
strings paired with unit letters. -/
def CompsWF (comps : List (String × Char)) : Prop :=
  ∀ p ∈ comps, p.1.data ≠ [] ∧ (∀ c ∈ p.1.data, isDigitCh c = true)
    ∧ unitChars.contains p.2 = true

/-- Merging the empty dict changes nothing. -/
theorem dmerge_nil (base : List (String × JVal)) : dmerge base [] = base := rfl

/-- Merging proceeds one key at a time. -/
theorem dmerge_cons (base : List (String × JVal)) (k : String) (v : JVal) (extra) :
    dmerge base ((k, v) :: extra) = dmerge (dinsert base k v) extra := rfl

/-- Inserting an absent key appends it. -/
theorem dinsert_miss (kvs : List (String × JVal)) (k : String) (v : JVal)
    (h : kvs.any (fun p => p.1 == k) = false) : dinsert kvs k v = kvs ++ [(k, v)] := by
  simp [dinsert, h]

/-- Inserting a present key overwrites it in place. -/
theorem dinsert_hit (kvs : List (String × JVal)) (k : String) (v : JVal)
    (h : kvs.any (fun p => p.1 == k) = true) :
    dinsert kvs k v = kvs.map (fun p => if p.1 == k then (k, v) else p) := by
  simp [dinsert, h]

/-- Lookup of the head key. -/
theorem jlookup_hit (k' : String) (v : JVal) (rest) (k : String) (h : (k' == k) = true) :
    jlookup ((k', v) :: rest) k = some v := by
  simp [jlookup, h]

/-- Lookup skips a non-matching head. -/
theorem jlookup_miss (k' : String) (v : JVal) (rest) (k : String) (h : (k' == k) = false) :
    jlookup ((k', v) :: rest) k = jlookup rest k := by
  simp [jlookup, h]

/-- Lookup in the empty dict. -/
theorem jlookup_nil (k : String) : jlookup [] k = none := rfl

/-- Claim C1 counterexample: at a concrete comment and a concrete new
issue, the `github.issue.comment.new` envelope has no top-level `number`
key at all (only `issue_number`), the `github.pr.comment.new` envelope has
no `pr_number` key, and the `github.issue.new` envelope carries `number`
as a JSON integer, which is not the string serialization the claim
requires. -/
theorem C1_counterexample :
    (jlookup
      (issueCommentEventData "acme/widget" "7"
        ⟨"IC_1", 1, "u", "alice", "OWNER", "b", "bt", "2024-01-01T00:00:00Z",
         "2024-01-02T00:00:00Z", some "2024-01-01T00:00:00Z", none, false, none, 0, []⟩)
      "number" = none)
    ∧ (jlookup
      (prCommentEventData "acme/widget" "7"
        ⟨"IC_1", 1, "u", "alice", "OWNER", "b", "bt", "2024-01-01T00:00:00Z",
         "2024-01-02T00:00:00Z", some "2024-01-01T00:00:00Z", none, false, none, 0, []⟩)
      "pr_number" = none)
    ∧ (jlookup
      (newEventData "acme/widget"
        ⟨"issue", 7, "T", "B", "u", "OPEN", "c", "up", none, "alice", [], [],
         none, false, "MERGEABLE", none⟩)
      "number" = some (JVal.num 7))
    ∧ (∀ s, JVal.num 7 ≠ JVal.str s) := by
  refine ⟨rfl, rfl, rfl, fun s h => JVal.noConfusion h⟩

/-- Claim C7 counterexample: `parse_duration "0s"` does not reject; it
returns zero seconds. -/
theorem C7_counterexample : parse_duration "0s" = Except.ok 0 := rfl

set_option maxRecDepth 20000 in
/-- Claim C6, evaluation at the failing input: with `--updated-since`
supplied, the pull-request query that `get_open_issues` generates does
contain the `filterBy.since` clause (the same one the issue query gets),
while without `--updated-since` it does not. GitHub's `pullRequests`
connection has no `filterBy` argument, so the generated query is invalid
and the fetch can only fail. -/
theorem C6_eval_at_failing_input :
    containsSubstr (get_open_issues_pr_query "owner" "repo" (some "2024-01-01T00:00:00Z"))
      ", filterBy: \x7bsince: \"2024-01-01T00:00:00Z\"\x7d" = true
    ∧ containsSubstr (get_open_issues_issue_query "owner" "repo" (some "2024-01-01T00:00:00Z"))
      ", filterBy: \x7bsince: \"2024-01-01T00:00:00Z\"\x7d" = true
    ∧ containsSubstr (get_open_issues_pr_query "owner" "repo" none) "filterBy" = false := by
  refine ⟨rfl, rfl, rfl⟩

/-- Claim C1, amended: every envelope carries top-level `repository`;
item `new` and `updated` envelopes carry `number` as the JSON integer from
the item payload (the `**item_data` spread overwrites the string form in
the `updated` case), while `closed` envelopes carry it as a string;
issue comment envelopes inline all Comment fields plus `issue_number` (as
a string) and carry no `number` or `pr_number` key; PR comment envelopes
inline all Comment fields plus `number` (as a string) and carry no
`pr_number` or `issue_number` key. -/
theorem C1_amended (repository number : String) (it : Item) (c : Comment) :
    jlookup (newEventData repository it) "repository" = some (.str repository)
    ∧ jlookup (newEventData repository it) "number" = some (.num it.number)
    ∧ jlookup (updatedEventData repository number it) "repository" = some (.str repository)
    ∧ jlookup (updatedEventData repository number it) "number" = some (.num it.number)
    ∧ jlookup (closedEventData repository number) "repository" = some (.str repository)
    ∧ jlookup (closedEventData repository number) "number" = some (.str number)
    ∧ jlookup (issueCommentEventData repository number c) "repository" = some (.str repository)
    ∧ jlookup (issueCommentEventData repository number c) "issue_number" = some (.str number)
    ∧ jlookup (issueCommentEventData repository number c) "number" = none
    ∧ jlookup (issueCommentEventData repository number c) "pr_number" = none
    ∧ jlookup (issueCommentEventData repository number c) "id" = some (.str c.id)
    ∧ jlookup (issueCommentEventData repository number c) "database_id" = some (.num c.database_id)
    ∧ jlookup (issueCommentEventData repository number c) "url" = some (.str c.url)
    ∧ jlookup (issueCommentEventData repository number c) "author" = some (.str c.author)
    ∧ jlookup (issueCommentEventData repository number c) "author_association"
        = some (.str c.author_association)
    ∧ jlookup (issueCommentEventData repository number c) "body" = some (.str c.body)
    ∧ jlookup (issueCommentEventData repository number c) "body_text" = some (.str c.body_text)
    ∧ jlookup (issueCommentEventData repository number c) "created_at" = some (.str c.created_at)
    ∧ jlookup (issueCommentEventData repository number c) "updated_at" = some (.str c.updated_at)
    ∧ jlookup (issueCommentEventData repository number c) "published_at" = some (optStr c.published_at)
    ∧ jlookup (issueCommentEventData repository number c) "last_edited_at"
        = some (optStr c.last_edited_at)
    ∧ jlookup (issueCommentEventData repository number c) "is_minimized" = some (.bool c.is_minimized)
    ∧ jlookup (issueCommentEventData repository number c) "minimized_reason"
        = some (optStr c.minimized_reason)
    ∧ jlookup (issueCommentEventData repository number c) "reactions"
        = some (.obj [("total_count", .num c.reactions_total),
            ("items", .arr (c.reactions_items.map
              (fun r => .obj [("content", .str r.1), ("user", .str r.2)])))])
    ∧ jlookup (prCommentEventData repository number c) "repository" = some (.str repository)
    ∧ jlookup (prCommentEventData repository number c) "number" = some (.str number)
    ∧ jlookup (prCommentEventData repository number c) "pr_number" = none
    ∧ jlookup (prCommentEventData repository number c) "issue_number" = none
    ∧ jlookup (prCommentEventData repository number c) "id" = some (.str c.id)
    ∧ jlookup (prCommentEventData repository number c) "database_id" = some (.num c.database_id)
    ∧ jlookup (prCommentEventData repository number c) "url" = some (.str c.url)
    ∧ jlookup (prCommentEventData repository number c) "author" = some (.str c.author)
    ∧ jlookup (prCommentEventData repository number c) "author_association"
        = some (.str c.author_association)
    ∧ jlookup (prCommentEventData repository number c) "body" = some (.str c.body)
    ∧ jlookup (prCommentEventData repository number c) "body_text" = some (.str c.body_text)
    ∧ jlookup (prCommentEventData repository number c) "created_at" = some (.str c.created_at)
    ∧ jlookup (prCommentEventData repository number c) "updated_at" = some (.str c.updated_at)
    ∧ jlookup (prCommentEventData repository number c) "published_at" = some (optStr c.published_at)
    ∧ jlookup (prCommentEventData repository number c) "last_edited_at"
        = some (optStr c.last_edited_at)
    ∧ jlookup (prCommentEventData repository number c) "is_minimized" = some (.bool c.is_minimized)
    ∧ jlookup (prCommentEventData repository number c) "minimized_reason"
        = some (optStr c.minimized_reason)
    ∧ jlookup (prCommentEventData repository number c) "reactions"
        = some (.obj [("total_count", .num c.reactions_total),
            ("items", .arr (c.reactions_items.map
              (fun r => .obj [("content", .str r.1), ("user", .str r.2)])))]) := by
  cases h : it.type == "pr" <;>
  · simp only [newEventData, updatedEventData, closedEventData, issueCommentEventData,
      prCommentEventData, itemDict, issueDict, prDict, commentDict, h,
      Bool.false_eq_true, Bool.true_eq_false, if_true, if_false,
      dmerge_cons, dmerge_nil, dinsert_miss, dinsert_hit, jlookup_hit, jlookup_miss,
      jlookup_nil, List.any_cons, List.any_nil, String.reduceBEq, Bool.or_self,
      Bool.or_false, Bool.false_or, Bool.or_true, Bool.true_or, List.cons_append,
      List.nil_append, List.map_cons, List.map_nil, reduceIte, and_true, true_and,
      and_self]

/-- Reading back the key just written. -/
theorem fsGet_fsSet_self (fs : FS) (k : Key) (g : ItemState → ItemState) :
    fsGet (fsSet fs k g) k = g (fsGet fs k) := by
  induction fs with
  | nil => simp [fsGet, fsSet]
  | cons e rest ih =>
    by_cases h : e.1 = k
    · simp [fsGet, fsSet, h]
    · simp [fsGet, fsSet, h, ih]

/-- Writing one key leaves every other key unchanged. -/
theorem fsGet_fsSet_other (fs : FS) (k k' : Key) (g : ItemState → ItemState)
    (h : k' ≠ k) : fsGet (fsSet fs k g) k' = fsGet fs k' := by
  induction fs with
  | nil =>
    simp only [fsSet, fsGet]
    rw [if_neg (fun hh => h hh.symm)]
  | cons e rest ih =>
    by_cases he : e.1 = k
    · simp only [fsSet, he, if_true]
      have hk : k ≠ k' := fun hh => h hh.symm
      simp [fsGet, hk, he]
    · simp only [fsSet, he, if_false]
      simp [fsGet, ih]

/-- Nothing is lexicographically below the empty character list. -/
theorem charListLt_nil_right (l : List Char) : charListLt l [] = false := by
  cases l <;> rfl

/-- Claim C10: reading `.type` classifies the item exactly when its
content, stripped and lowercased, is `issue` or `pr`; on any other content
`get_type_from_file` reports no cached value, and `is_pull_request`
answers from the remote probe and rewrites `.type` with the probe's
result. -/
theorem C10_type_file_validation (st : MState) (k : Key) (raw : String)
    (probe : Key → Bool)
    (hfile : (fsGet st.fs k).typeFile = some raw) :
    (∀ v, get_type_from_file st.fs k = some v ↔
      ((plower (pstrip raw) = "issue" ∨ plower (pstrip raw) = "pr")
        ∧ v = plower (pstrip raw)))
    ∧ (¬(plower (pstrip raw) = "issue" ∨ plower (pstrip raw) = "pr") →
        is_pull_request probe st k =
          (probe k, doSaveType st k (if probe k then "pr" else "issue"))) := by
  have hcond : ((plower (pstrip raw) == "issue" || plower (pstrip raw) == "pr") = true)
      ↔ (plower (pstrip raw) = "issue" ∨ plower (pstrip raw) = "pr") := by
    simp
  constructor
  · intro v
    simp only [get_type_from_file, hfile]
    by_cases h : plower (pstrip raw) = "issue" ∨ plower (pstrip raw) = "pr"
    · rw [if_pos (hcond.mpr h)]
      simp only [Option.some.injEq]
      constructor
      · intro he
        exact ⟨h, he.symm⟩
      · rintro ⟨-, hv⟩
        exact hv.symm
    · rw [if_neg (fun hh => h (hcond.mp hh))]
      simp [h]
  · intro hinv
    have hn : get_type_from_file st.fs k = none := by
      simp only [get_type_from_file, hfile]
      rw [if_neg (fun hh => hinv (hcond.mp hh))]
    simp [is_pull_request, hn]

/-- Witness for C10 at a concrete state whose `.type` holds `bogus`. -/
theorem C10_type_file_validation_witness :
    is_pull_request (fun _ => true)
      ⟨[(("o/r", "1"), { dirExists := true, typeFile := some "bogus" })], [], []⟩
      ("o/r", "1")
      = (true, doSaveType
          ⟨[(("o/r", "1"), { dirExists := true, typeFile := some "bogus" })], [], []⟩
          ("o/r", "1") "pr") := by
  have h := (C10_type_file_validation
    ⟨[(("o/r", "1"), { dirExists := true, typeFile := some "bogus" })], [], []⟩
    ("o/r", "1") "bogus" (fun _ => true) rfl).2 (by decide)
  exact h

/-- Claim C5: when the template the resolver finds has whitespace-only
content, the handler does not spawn the LLM, acknowledges the event, and
reports that very template; and the resolver's answer never falls back
past the most specific level that has the file: whenever the
`<owner>/<name>` directory exists and holds `<event>.md`, the resolved
path is that file, whatever its content and whatever the other levels
hold. -/
theorem C5_empty_template_skips (t : TemplatesFS) (repository event c : String)
    (p : List String) (llmOk : Bool)
    (hfind : find_template t repository event = .ok (some p))
    (hread : readFileAt t p = some c)
    (hempty : pstrip c = "") :
    (handle_event_with_template t true repository event llmOk).llmInvoked = false
    ∧ (handle_event_with_template t true repository event llmOk).outcome = .ack
    ∧ (handle_event_with_template t true repository event llmOk).template = some p
    ∧ (∀ owner name : String, splitSlash repository = some (owner, name) →
        hasDir t [owner, name] = true →
        (readFileAt t [owner, name, event ++ ".md"]).isSome = true →
        p = [owner, name, event ++ ".md"]) := by
  have hinv : invoke_claude t p llmOk = (false, true) := by
    simp [invoke_claude, hread, hempty]
  have hh : handle_event_with_template t true repository event llmOk =
      { template := some p, llmInvoked := false, outcome := .ack } := by
    unfold handle_event_with_template
    simp [hfind, hinv]
  refine ⟨by rw [hh], by rw [hh], by rw [hh], ?_⟩
  intro owner name hsplit hdir hfile
  unfold find_template at hfind
  cases hr : t.rootHere with
  | false => rw [hr] at hfind; simp at hfind
  | true =>
    rw [hr, hsplit] at hfind
    simp only [Bool.not_true, if_false] at hfind
    have hfirst : firstTemplateFile t [[owner, name], [owner, ".default"], [".default"]]
        (event ++ ".md") = some p := by
      simpa using hfind
    rw [firstTemplateFile, hdir] at hfirst
    rw [if_pos rfl] at hfirst
    simp only [List.cons_append, List.nil_append] at hfirst
    rw [if_pos hfile] at hfirst
    exact (Option.some.inj hfirst).symm

/-- Witness for C5: the S5 scenario, an empty `acme/widget` template with
a non-empty fallback in `.default`; the handler acks without an LLM call. -/
theorem C5_empty_template_skips_witness :
    (handle_event_with_template
      ⟨true, [["acme", "widget"], [".default"]],
        [(["acme", "widget", "github.pr.comment.new.md"], "  \n"),
         ([".default", "github.pr.comment.new.md"], "respond to the comment")]⟩
      true "acme/widget" "github.pr.comment.new" true).llmInvoked = false
    ∧ (handle_event_with_template
      ⟨true, [["acme", "widget"], [".default"]],
        [(["acme", "widget", "github.pr.comment.new.md"], "  \n"),
         ([".default", "github.pr.comment.new.md"], "respond to the comment")]⟩
      true "acme/widget" "github.pr.comment.new" true).outcome = .ack := by
  have h := C5_empty_template_skips
    ⟨true, [["acme", "widget"], [".default"]],
      [(["acme", "widget", "github.pr.comment.new.md"], "  \n"),
       ([".default", "github.pr.comment.new.md"], "respond to the comment")]⟩
    "acme/widget" "github.pr.comment.new" "  \n"
    ["acme", "widget", "github.pr.comment.new.md"] true rfl rfl rfl
  exact ⟨h.1, h.2.1⟩

/-- A list never equals itself extended by one element. -/
theorem append_singleton_ne (l : List Event) (x : Event) : l ++ [x] ≠ l := by
  intro h
  have hlen := congrArg List.length h
  simp at hlen

/-- A successful publish appends the event to the stream. -/
theorem doPublish_true_events (st : MState) (subj : String) (data : List (String × JVal)) :
    (doPublish true st subj data).events = st.events ++ [(subj, data)] := rfl

/-- Publishing never touches the filesystem. -/
theorem doPublish_fs (pk : Bool) (st : MState) (subj : String) (data : List (String × JVal)) :
    (doPublish pk st subj data).fs = st.fs := by
  cases pk <;> rfl

/-- Publishing never records a marker write. -/
theorem doPublish_writes (pk : Bool) (st : MState) (subj : String)
    (data : List (String × JVal)) :
    (doPublish pk st subj data).writes = st.writes := by
  cases pk <;> rfl

/-- Writing `.last_checked` leaves the stream alone. -/
theorem doSaveLastChecked_events (st : MState) (k : Key) (t : String) :
    (doSaveLastChecked st k t).events = st.events := rfl

/-- After writing `.last_checked`, reading it back gives the new value. -/
theorem doSaveLastChecked_read (st : MState) (k : Key) (t : String) :
    (fsGet (doSaveLastChecked st k t).fs k).lastChecked = some t := by
  simp [doSaveLastChecked, fsGet_fsSet_self]

/-- An absent watermark always reports an update. -/
theorem has_update_of_none (u : String) : has_update_of none u = true := rfl

/-- Against a stored watermark, `has_update` is exactly the strict string
comparison: the extra truthiness test on `updated_at` is redundant because
no string is strictly above the empty string. -/
theorem has_update_of_some (lc u : String) : has_update_of (some lc) u = strLt lc u := by
  cases hlt : strLt lc u with
  | false => simp [has_update_of, hlt]
  | true =>
    have hne : (u != "") = true := by
      cases heq : u == "" with
      | true =>
        have hu : u = "" := by simpa using heq
        rw [hu, show strLt lc "" = false from charListLt_nil_right lc.data] at hlt
        exact absurd hlt (by simp)
      | false => simp [bne, heq]
    simp [has_update_of, hlt, hne]

/-- The open-item branch of `process_item`, written as one equation: the
update event is published exactly under `has_update`, and `.last_checked`
is rewritten either way. -/
theorem process_item_open (pk : Bool) (st : MState)
    (repository number current_time : String) (item : Item)
    (open_items : List (String × Item))
    (hmem : open_items.lookup number = some item) :
    process_item pk false current_time repository open_items st number =
      doSaveLastChecked
        (if has_update_of (get_last_checked st.fs (repository, number)) item.updated_at
          then doPublish pk st
            (if item.type == "pr" then "github.pr.updated" else "github.issue.updated")
            (updatedEventData repository number item)
          else st)
        (repository, number) current_time := by
  simp only [process_item, hmem]
  cases hu : has_update_of (get_last_checked st.fs (repository, number)) item.updated_at <;>
    cases hty : item.type == "pr" <;>
    simp [hu, hty]

/-- Claim C4: for an active item present in the polled open set (and not
in dry-run mode, with the publish succeeding), the `github.<kind>.updated`
event is emitted exactly when there is no readable `.last_checked` or the
item's `updated_at` is strictly greater than it; `.last_checked` is
rewritten with the captured current time whether or not the event was
emitted; and no update event is emitted when `updated_at` is at or below
the watermark. -/
theorem C4_update_gating (st : MState) (repository number current_time : String)
    (item : Item) (open_items : List (String × Item))
    (hmem : open_items.lookup number = some item) :
    ((fsGet (process_item true false current_time repository open_items st number).fs
        (repository, number)).lastChecked = some current_time)
    ∧ ((process_item true false current_time repository open_items st number).events
        = st.events ++
          [((if item.type == "pr" then "github.pr.updated" else "github.issue.updated"),
            updatedEventData repository number item)]
        ↔ (get_last_checked st.fs (repository, number) = none
            ∨ ∃ lc, get_last_checked st.fs (repository, number) = some lc
                ∧ strLt lc item.updated_at = true))
    ∧ (∀ lc, get_last_checked st.fs (repository, number) = some lc →
        strLe item.updated_at lc = true →
        (process_item true false current_time repository open_items st number).events
          = st.events) := by
  rw [process_item_open true st repository number current_time item open_items hmem]
  refine ⟨doSaveLastChecked_read _ _ _, ?_, ?_⟩
  · rw [doSaveLastChecked_events]
    cases hop : get_last_checked st.fs (repository, number) with
    | none =>
      rw [has_update_of_none, if_pos rfl, doPublish_true_events]
      simp
    | some lc =>
      rw [has_update_of_some]
      cases hlt : strLt lc item.updated_at with
      | true =>
        rw [if_pos rfl, doPublish_true_events]
        simp only [true_iff, iff_true]
        exact Or.inr ⟨lc, rfl, hlt⟩
      | false =>
        rw [if_neg (by simp)]
        constructor
        · intro habs
          exact absurd habs.symm (append_singleton_ne st.events _)
        · rintro (h1 | ⟨lc', hlc', hlt'⟩)
          · exact absurd h1 (by simp)
          · have hl2 : lc' = lc := (Option.some.inj hlc').symm
            rw [hl2, hlt] at hlt'
            exact absurd hlt' (by simp)
  · intro lc hlc hle
    have hlt : strLt lc item.updated_at = false := by
      simp only [strLe, Bool.not_eq_true'] at hle
      simpa [strLt] using hle
    rw [doSaveLastChecked_events, hlc, has_update_of_some, hlt, if_neg (by simp)]

/-- Witness for C4: a concrete updated item; `.last_checked` afterwards
holds the new capture time. -/
theorem C4_update_gating_witness :
    (fsGet (process_item true false "2024-01-03T00:00:00+00:00" "o/r"
        [("1", ⟨"issue", 1, "T", "B", "u", "OPEN", "c", "2024-01-02T00:00:00+00:00",
          none, "alice", [], [], none, false, "MERGEABLE", none⟩)]
        ⟨[(("o/r", "1"),
          { dirExists := true, active := true,
            lastChecked := some "2024-01-01T00:00:00+00:00" })], [], []⟩
        "1").fs ("o/r", "1")).lastChecked = some "2024-01-03T00:00:00+00:00" := by
  exact (C4_update_gating
    ⟨[(("o/r", "1"),
      { dirExists := true, active := true,
        lastChecked := some "2024-01-01T00:00:00+00:00" })], [], []⟩
    "o/r" "1" "2024-01-03T00:00:00+00:00"
    ⟨"issue", 1, "T", "B", "u", "OPEN", "c", "2024-01-02T00:00:00+00:00",
      none, "alice", [], [], none, false, "MERGEABLE", none⟩
    [("1", ⟨"issue", 1, "T", "B", "u", "OPEN", "c", "2024-01-02T00:00:00+00:00",
      none, "alice", [], [], none, false, "MERGEABLE", none⟩)] rfl).1

/-- Publishing, successful or failed, never changes the core. -/
theorem stateCore_doPublish (pk : Bool) (st : MState) (subj : String)
    (data : List (String × JVal)) : stateCore (doPublish pk st subj data) = stateCore st := by
  cases pk <;> rfl
/-- Folding a core-preserving step preserves the core. -/
theorem foldl_core_const {α : Type} (f : MState → α → MState)
    (h : ∀ st a, stateCore (f st a) = stateCore st) (l : List α) :
    ∀ st : MState, stateCore (l.foldl f st) = stateCore st := by
  induction l with
  | nil => intro st; rfl
  | cons a t ih => intro st; rw [List.foldl_cons, ih (f st a), h st a]

/-- Folding two pointwise core-congruent steps from core-equal states
yields core-equal states. -/
theorem foldl_core_cong {α : Type} (f g : MState → α → MState)
    (h : ∀ st st' a, stateCore st = stateCore st' → stateCore (f st a) = stateCore (g st' a))
    (l : List α) :
    ∀ st st' : MState, stateCore st = stateCore st' →
      stateCore (l.foldl f st) = stateCore (l.foldl g st') := by
  induction l with
  | nil => intro st st' h0; simpa using h0
  | cons a t ih => intro st st' h0; exact ih _ _ (h _ _ _ h0)

/-- Core projections of a core equality. -/
theorem stateCore_fs {st st' : MState} (h : stateCore st = stateCore st') :
    st.fs = st'.fs := congrArg Prod.fst h

/-- Core projections of a core equality. -/
theorem stateCore_writes {st st' : MState} (h : stateCore st = stateCore st') :
    st.writes = st'.writes := congrArg Prod.snd h

/-- Writing `.last_checked` is core-congruent. -/
theorem doSaveLastChecked_core_cong {st st' : MState} (k : Key) (t : String)
    (h : stateCore st = stateCore st') :
    stateCore (doSaveLastChecked st k t) = stateCore (doSaveLastChecked st' k t) := by
  simp [stateCore, doSaveLastChecked, stateCore_fs h, stateCore_writes h]

/-- Writing `.type` is core-congruent. -/
theorem doSaveType_core_cong {st st' : MState} (k : Key) (v : String)
    (h : stateCore st = stateCore st') :
    stateCore (doSaveType st k v) = stateCore (doSaveType st' k v) := by
  simp [stateCore, doSaveType, stateCore_fs h, stateCore_writes h]

/-- Writing a comment watermark is core-congruent. -/
theorem doSaveCommentCheck_core_cong {st st' : MState} (k : Key) (kind : CKind) (t : String)
    (h : stateCore st = stateCore st') :
    stateCore (doSaveCommentCheck st k kind t) = stateCore (doSaveCommentCheck st' k kind t) := by
  simp only [doSaveCommentCheck, stateCore_fs h]
  cases hd : (fsGet st'.fs k).dirExists
  · simpa using h
  · simp [stateCore, stateCore_fs h, stateCore_writes h]

/-- One discovery step is core-congruent, in particular across different
publish outcomes. -/
theorem discover_item_core_cong (pk pk' dr : Bool) (t repository : String)
    {st st' : MState} (e : String × Item) (h : stateCore st = stateCore st') :
    stateCore (discover_item pk dr t repository st e)
      = stateCore (discover_item pk' dr t repository st' e) := by
  simp only [discover_item, stateCore_fs h]
  cases hd : (fsGet st'.fs (repository, e.1)).dirExists with
  | false =>
    cases dr with
    | false =>
      simp only [Bool.false_eq_true, if_false]
      exact doSaveType_core_cong _ _ (doSaveLastChecked_core_cong _ _
        ((stateCore_doPublish _ _ _ _).trans (h.trans (stateCore_doPublish _ _ _ _).symm)))
    | true => simpa using h
  | true => simpa using h

/-- The discovery pass is core-congruent across publish outcomes. -/
theorem monitor_repositories_core_cong (pk pk' dr : Bool) (t : String)
    (repositories : List String) (openF : String → List (String × Item))
    {st st' : MState} (h : stateCore st = stateCore st') :
    stateCore (monitor_repositories pk dr t repositories openF st)
      = stateCore (monitor_repositories pk' dr t repositories openF st') := by
  unfold monitor_repositories
  refine foldl_core_cong _ _ ?_ repositories st st' h
  intro s1 s2 repo h12
  exact foldl_core_cong _ _ (fun a b e hab => discover_item_core_cong pk pk' dr t repo e hab)
    (openF repo) s1 s2 h12

/-- One update/closed step is core-congruent across publish outcomes. -/
theorem process_item_core_cong (pk pk' dr : Bool) (t repository : String)
    (open_items : List (String × Item)) {st st' : MState} (number : String)
    (h : stateCore st = stateCore st') :
    stateCore (process_item pk dr t repository open_items st number)
      = stateCore (process_item pk' dr t repository open_items st' number) := by
  simp only [process_item, stateCore_fs h]
  cases hlk : open_items.lookup number with
  | none =>
    cases dr with
    | false =>
      simp only [Bool.false_eq_true, if_false]
      exact doSaveLastChecked_core_cong _ _
        ((stateCore_doPublish _ _ _ _).trans (h.trans (stateCore_doPublish _ _ _ _).symm))
    | true => simpa using h
  | some item =>
    cases dr with
    | false =>
      simp only [Bool.false_eq_true, if_false]
      cases hu : has_update_of (get_last_checked st'.fs (repository, number)) item.updated_at <;>
        cases hty : item.type == "pr" <;>
        · refine doSaveLastChecked_core_cong _ _ ?_
          simp only [hu, hty, Bool.false_eq_true, Bool.true_eq_false, if_false, if_true]
          first
          | exact (stateCore_doPublish _ _ _ _).trans (h.trans (stateCore_doPublish _ _ _ _).symm)
          | exact h
    | true => simpa using h

/-- Each comment-emission step only publishes; the core never changes. -/
theorem comment_check_item_core_const (pk dr : Bool) (kind : CKind) (repository : String)
    (all_comments : List (String × List Comment)) (st : MState) (number : String) :
    stateCore (comment_check_item pk dr kind repository all_comments st number)
      = stateCore st := by
  unfold comment_check_item
  refine foldl_core_const _ ?_ _ st
  intro s c
  by_cases h1 : (match get_last_comment_check s.fs (repository, number) kind with
      | some t => t != "" && strLe c.updated_at t
      | none => false) = true
  · rw [if_pos h1]
  · rw [if_neg h1]
    cases dr with
    | false =>
      simp only [Bool.false_eq_true, if_false]
      exact stateCore_doPublish _ _ _ _
    | true => rfl

/-- A conditional core-preserving fold preserves the core. -/
theorem if_foldl_core_const {α : Type} (c : Prop) [Decidable c] (f : MState → α → MState)
    (hf : ∀ s a, stateCore (f s a) = stateCore s) (l : List α) (st : MState) :
    stateCore (if c then l.foldl f st else st) = stateCore st := by
  split
  · exact foldl_core_const f hf l st
  · rfl

/-- One comment-phase repository group is core-congruent across publish
outcomes. -/
theorem monitor_comments_repo_core_cong (pk pk' dr : Bool) (kind : CKind) (t : String)
    (commentsF : String → Except Unit (List (String × List Comment)))
    {st st' : MState} (grp : String × List String) (h : stateCore st = stateCore st') :
    stateCore (monitor_comments_repo pk dr kind t commentsF st grp)
      = stateCore (monitor_comments_repo pk' dr kind t commentsF st' grp) := by
  unfold monitor_comments_repo
  simp only [stateCore_fs h]
  cases dr with
  | false =>
    simp only [Bool.false_eq_true, if_false]
    refine foldl_core_cong (fun s n => doSaveCommentCheck s (grp.1, n) kind t)
      (fun s n => doSaveCommentCheck s (grp.1, n) kind t)
      (fun s1 s2 n hab => doSaveCommentCheck_core_cong (grp.1, n) kind t hab) _ _ _ ?_
    exact (if_foldl_core_const _ _
        (fun s n => comment_check_item_core_const pk false kind grp.1 _ s n) _ _).trans
      (h.trans (if_foldl_core_const _ _
        (fun s n => comment_check_item_core_const pk' false kind grp.1 _ s n) _ _).symm)
  | true =>
    simp only [if_true]
    exact (if_foldl_core_const _ _
        (fun s n => comment_check_item_core_const pk true kind grp.1 _ s n) _ _).trans
      (h.trans (if_foldl_core_const _ _
        (fun s n => comment_check_item_core_const pk' true kind grp.1 _ s n) _ _).symm)

/-- The whole comment phase is core-congruent across publish outcomes. -/
theorem monitor_comments_core_cong (pk pk' dr : Bool) (kind : CKind) (t : String)
    (commentsF : String → Except Unit (List (String × List Comment)))
    {st st' : MState} (active : List Key) (h : stateCore st = stateCore st') :
    stateCore (monitor_comments pk dr kind t commentsF st active)
      = stateCore (monitor_comments pk' dr kind t commentsF st' active) := by
  unfold monitor_comments
  exact foldl_core_cong _ _
    (fun a b grp hab => monitor_comments_repo_core_cong pk pk' dr kind t commentsF grp hab)
    _ _ _ h

/-- The update/closed phase is core-congruent across publish outcomes. -/
theorem process_active_issues_core_cong (pk pk' dr : Bool) (t : String)
    (openF : String → List (String × Item)) {st st' : MState} (active : List Key)
    (h : stateCore st = stateCore st') :
    stateCore (process_active_issues pk dr t openF st active)
      = stateCore (process_active_issues pk' dr t openF st' active) := by
  unfold process_active_issues
  refine foldl_core_cong _ _ ?_ _ _ _ h
  intro s1 s2 grp h12
  by_cases hc : ((openF grp.1).isEmpty && !grp.2.isEmpty) = true
  · rw [if_pos hc, if_pos hc]
    exact h12
  · rw [if_neg hc, if_neg hc]
    exact foldl_core_cong _ _
      (fun a b n hab => process_item_core_cong pk pk' dr t grp.1 (openF grp.1) n hab)
      _ _ _ h12

/-- Claim C3, amended: a failed publish is caught and logged inside
`publish_event` and control returns normally, so the filesystem and the
write log after the discovery, update/closed and comment phases are
exactly what they would have been had the publish succeeded; in
particular the watermarks are still advanced, they do not retain their
previous contents. -/
theorem C3_amended (dr : Bool) (kind : CKind) (t : String) (repositories : List String)
    (openF : String → List (String × Item))
    (commentsF : String → Except Unit (List (String × List Comment)))
    (st : MState) (active : List Key) :
    stateCore (monitor_repositories false dr t repositories openF st)
      = stateCore (monitor_repositories true dr t repositories openF st)
    ∧ stateCore (process_active_issues false dr t openF st active)
      = stateCore (process_active_issues true dr t openF st active)
    ∧ stateCore (monitor_comments false dr kind t commentsF st active)
      = stateCore (monitor_comments true dr kind t commentsF st active) := by
  exact ⟨monitor_repositories_core_cong false true dr t repositories openF rfl,
    process_active_issues_core_cong false true dr t openF active rfl,
    monitor_comments_core_cong false true dr kind t commentsF active rfl⟩

/-- Claim C3 counterexample: a concrete failed publish of an update event.
Nothing reaches the stream, yet `.last_checked` is advanced from its
previous content to the new capture time rather than retained. -/
theorem C3_counterexample :
    (process_active_issues false false "2024-01-03T00:00:00+00:00"
      (fun _ => [("1", ⟨"issue", 1, "T", "B", "u", "OPEN", "c",
        "2024-01-02T00:00:00+00:00", none, "alice", [], [], none, false,
        "MERGEABLE", none⟩)])
      ⟨[(("o/r", "1"),
        { dirExists := true, active := true,
          lastChecked := some "2024-01-01T00:00:00+00:00" })], [], []⟩
      [("o/r", "1")]).events = []
    ∧ (fsGet (process_active_issues false false "2024-01-03T00:00:00+00:00"
      (fun _ => [("1", ⟨"issue", 1, "T", "B", "u", "OPEN", "c",
        "2024-01-02T00:00:00+00:00", none, "alice", [], [], none, false,
        "MERGEABLE", none⟩)])
      ⟨[(("o/r", "1"),
        { dirExists := true, active := true,
          lastChecked := some "2024-01-01T00:00:00+00:00" })], [], []⟩
      [("o/r", "1")]).fs ("o/r", "1")).lastChecked
        = some "2024-01-03T00:00:00+00:00"
    ∧ some "2024-01-03T00:00:00+00:00" ≠ some "2024-01-01T00:00:00+00:00" := by
  refine ⟨rfl, rfl, by simp⟩

/-- Setting a comment watermark stores the new value in its field. -/
theorem commentFld_setCommentFld (s : ItemState) (kind : CKind) (t : String) :
    commentFld (setCommentFld s kind t) kind = some t := by
  cases kind <;> rfl

/-- Setting a comment watermark does not create or remove the directory. -/
theorem setCommentFld_dirExists (s : ItemState) (kind : CKind) (t : String) :
    (setCommentFld s kind t).dirExists = s.dirExists := by
  cases kind <;> rfl

/-- A comment-watermark write never changes which directories exist. -/
theorem doSaveCommentCheck_dirEx (s : MState) (k k' : Key) (kind : CKind) (t : String) :
    (fsGet (doSaveCommentCheck s k kind t).fs k').dirExists
      = (fsGet s.fs k').dirExists := by
  unfold doSaveCommentCheck
  split
  · by_cases hk : k' = k
    · subst hk
      simp only [fsGet_fsSet_self, setCommentFld_dirExists]
    · simp only [fsGet_fsSet_other _ _ _ _ hk]
  · rfl

/-- A comment-watermark write to an existing directory is read back. -/
theorem doSaveCommentCheck_sets (s : MState) (k : Key) (kind : CKind) (t : String)
    (hd : (fsGet s.fs k).dirExists = true) :
    commentFld (fsGet (doSaveCommentCheck s k kind t).fs k) kind = some t := by
  unfold doSaveCommentCheck
  rw [if_pos hd]
  simp only [fsGet_fsSet_self, commentFld_setCommentFld]

/-- A comment-watermark write preserves any equal watermark elsewhere. -/
theorem doSaveCommentCheck_keeps (s : MState) (k k' : Key) (kind : CKind) (t : String)
    (hp : commentFld (fsGet s.fs k') kind = some t) :
    commentFld (fsGet (doSaveCommentCheck s k kind t).fs k') kind = some t := by
  unfold doSaveCommentCheck
  split
  · by_cases hk : k' = k
    · subst hk
      simp only [fsGet_fsSet_self, commentFld_setCommentFld]
    · simp only [fsGet_fsSet_other _ _ _ _ hk]
      exact hp
  · exact hp

/-- Folding a property-preserving step preserves the property. -/
theorem foldl_preserve {α : Type} (P : MState → Prop) (f : MState → α → MState)
    (hf : ∀ s a, P s → P (f s a)) : ∀ (l : List α) (s : MState), P s → P (l.foldl f s) := by
  intro l
  induction l with
  | nil => intro s hs; exact hs
  | cons a rest ih => intro s hs; exact ih (f s a) (hf s a hs)

/-- The trailing watermark loop of the comment phase: every listed item
whose directory exists ends with its comment watermark equal to the
captured current time. -/
theorem comment_save_fold (kind : CKind) (t repository : String) :
    ∀ (numbers : List String) (st : MState),
      (∀ n ∈ numbers, (fsGet st.fs (repository, n)).dirExists = true) →
      ∀ n ∈ numbers,
        commentFld (fsGet (numbers.foldl
          (fun s n => doSaveCommentCheck s (repository, n) kind t) st).fs
          (repository, n)) kind = some t := by
  intro numbers
  induction numbers with
  | nil =>
    intro st _ n hn
    exact absurd hn (List.not_mem_nil n)
  | cons m rest ih =>
    intro st h n hn
    rw [List.foldl_cons]
    rcases List.mem_cons.mp hn with hm | hr
    · subst hm
      refine foldl_preserve
        (fun s => commentFld (fsGet s.fs (repository, n)) kind = some t) _ ?_ rest _ ?_
      · intro s a hs
        exact doSaveCommentCheck_keeps s (repository, a) (repository, n) kind t hs
      · exact doSaveCommentCheck_sets st (repository, n) kind t
          (h n (List.mem_cons_self n rest))
    · refine ih (doSaveCommentCheck st (repository, m) kind t) ?_ n hr
      intro n' hn'
      rw [doSaveCommentCheck_dirEx]
      exact h n' (List.mem_cons_of_mem m hn')

/-- Claim C2, amended: the comment phase of a cycle rewrites the comment
watermark of every listed item (with an existing directory) to the phase's
captured current time, and does so whether the repository-wide comment
fetch succeeded, returned nothing, or failed — an error is caught inside
`get_all_repository_comments` and surfaces as the same empty dictionary as
"no new comments". Under the hypothesis that the phase time is at or above
every stored watermark (true of a monotone clock), every watermark
therefore advances monotonically; but after a failed fetch the per-item
watermarks do not keep their previous value, they are overwritten. -/
theorem C2_amended (pk : Bool) (kind : CKind) (t : String)
    (commentsF : String → Except Unit (List (String × List Comment)))
    (st : MState) (repository : String) (numbers : List String)
    (hdirs : ∀ n ∈ numbers, (fsGet st.fs (repository, n)).dirExists = true)
    (hmono : ∀ n ∈ numbers, ∀ old,
        commentFld (fsGet st.fs (repository, n)) kind = some old →
        strLe (pstrip old) t = true) :
    ∀ n ∈ numbers,
      commentFld (fsGet (monitor_comments_repo pk false kind t commentsF st
          (repository, numbers)).fs (repository, n)) kind = some t
      ∧ (∀ old, commentFld (fsGet st.fs (repository, n)) kind = some old →
          strLe (pstrip old) t = true) := by
  intro n hn
  refine ⟨?_, fun old hold => hmono n hn old hold⟩
  unfold monitor_comments_repo
  simp only [Bool.false_eq_true, if_false]
  have hcore : stateCore (if (!(get_all_repository_comments (commentsF (repository, numbers).1)
      (get_repository_last_comment_check st.fs (repository, numbers).1 kind)).isEmpty) = true
      then (repository, numbers).2.foldl
        (comment_check_item pk false kind (repository, numbers).1
          (get_all_repository_comments (commentsF (repository, numbers).1)
            (get_repository_last_comment_check st.fs (repository, numbers).1 kind))) st
      else st) = stateCore st :=
    if_foldl_core_const _ _
      (fun s a => comment_check_item_core_const pk false kind (repository, numbers).1 _ s a) _ _
  refine comment_save_fold kind t repository numbers _ ?_ n hn
  intro n' hn'
  rw [stateCore_fs hcore]
  exact hdirs n' hn'

/-- Witness for C2: one active issue, a failed repository comment fetch;
the item's comment watermark afterwards equals the phase time. -/
theorem C2_amended_witness :
    commentFld (fsGet (monitor_comments_repo true false .issue "2024-01-02T00:00:00+00:00"
        (fun _ => Except.error ())
        ⟨[(("o/r", "1"),
          { dirExists := true, active := true,
            issueCommentCheck := some "2024-01-01T00:00:00+00:00" })], [], []⟩
        ("o/r", ["1"])).fs ("o/r", "1")) .issue
      = some "2024-01-02T00:00:00+00:00" := by
  have h := (C2_amended true .issue "2024-01-02T00:00:00+00:00" (fun _ => Except.error ())
    ⟨[(("o/r", "1"),
      { dirExists := true, active := true,
        issueCommentCheck := some "2024-01-01T00:00:00+00:00" })], [], []⟩
    "o/r" ["1"]
    (by
      intro n hn
      simp only [List.mem_singleton] at hn
      subst hn
      rfl)
    (by
      intro n hn old hold
      simp only [List.mem_singleton] at hn
      subst hn
      have hold2 : some "2024-01-01T00:00:00+00:00" = some old := hold
      have ho : old = "2024-01-01T00:00:00+00:00" := (Option.some.inj hold2).symm
      subst ho
      decide)
    "1" (by simp))
  exact h.1

/-- Claim C2 counterexample: with the repository-wide comment fetch
failing (the caught error yields the empty dictionary), no event is
emitted, yet the active item's comment-check watermark is overwritten with
the phase time instead of keeping its previous value. -/
theorem C2_counterexample :
    (monitor_comments true false .issue "2024-01-02T00:00:00+00:00"
      (fun _ => Except.error ())
      ⟨[(("o/r", "1"),
        { dirExists := true, active := true,
          issueCommentCheck := some "2024-01-01T00:00:00+00:00" })], [], []⟩
      [("o/r", "1")]).events = []
    ∧ (fsGet (monitor_comments true false .issue "2024-01-02T00:00:00+00:00"
      (fun _ => Except.error ())
      ⟨[(("o/r", "1"),
        { dirExists := true, active := true,
          issueCommentCheck := some "2024-01-01T00:00:00+00:00" })], [], []⟩
      [("o/r", "1")]).fs ("o/r", "1")).issueCommentCheck
        = some "2024-01-02T00:00:00+00:00"
    ∧ some "2024-01-02T00:00:00+00:00" ≠ some "2024-01-01T00:00:00+00:00" := by
  refine ⟨rfl, rfl, by simp⟩

/-- A state extends itself by nothing. -/
theorem writesExt_refl (Q : WriteRec → Prop) (st : MState) : WritesExt Q st st :=
  ⟨[], by simp, by simp⟩

/-- Unchanged logs extend by nothing. -/
theorem writesExt_of_eq (Q : WriteRec → Prop) {st st' : MState}
    (h : st'.writes = st.writes) : WritesExt Q st st' :=
  ⟨[], by simp [h], by simp⟩

/-- Log extension composes. -/
theorem writesExt_trans (Q : WriteRec → Prop) {st1 st2 st3 : MState}
    (h1 : WritesExt Q st1 st2) (h2 : WritesExt Q st2 st3) : WritesExt Q st1 st3 := by
  obtain ⟨d1, he1, hq1⟩ := h1
  obtain ⟨d2, he2, hq2⟩ := h2
  refine ⟨d1 ++ d2, ?_, ?_⟩
  · rw [he2, he1, List.append_assoc]
  · intro r hr
    rcases List.mem_append.mp hr with h | h
    · exact hq1 r h
    · exact hq2 r h

/-- Folding extension-producing steps produces an extension. -/
theorem foldl_writesExt {α : Type} (Q : WriteRec → Prop) (f : MState → α → MState)
    (hf : ∀ s a, WritesExt Q s (f s a)) :
    ∀ (l : List α) (s : MState), WritesExt Q s (l.foldl f s) := by
  intro l
  induction l with
  | nil => intro s; exact writesExt_refl Q s
  | cons a rest ih =>
    intro s
    exact writesExt_trans Q (hf s a) (ih (f s a))

/-- Publishing extends the log by nothing. -/
theorem writesExt_doPublish (Q : WriteRec → Prop) (pk : Bool) (st : MState)
    (subj : String) (data : List (String × JVal)) :
    WritesExt Q st (doPublish pk st subj data) :=
  writesExt_of_eq Q (doPublish_writes pk st subj data)

/-- Writing `.last_checked` extends the log by one record with the
written value. -/
theorem writesExt_doSaveLastChecked (Q : WriteRec → Prop) (st : MState) (k : Key)
    (t : String) (hq : Q ⟨k.1, k.2, .lastCheckedF, t⟩) :
    WritesExt Q st (doSaveLastChecked st k t) := by
  refine ⟨[⟨k.1, k.2, .lastCheckedF, t⟩], rfl, ?_⟩
  intro r hr
  rw [List.mem_singleton.mp hr]
  exact hq

/-- Writing `.type` extends the log by one record tagged `typeF`. -/
theorem writesExt_doSaveType (Q : WriteRec → Prop) (st : MState) (k : Key)
    (v : String) (hq : Q ⟨k.1, k.2, .typeF, plower v⟩) :
    WritesExt Q st (doSaveType st k v) := by
  refine ⟨[⟨k.1, k.2, .typeF, plower v⟩], rfl, ?_⟩
  intro r hr
  rw [List.mem_singleton.mp hr]
  exact hq

/-- Writing a comment watermark extends the log by at most one record
with the written value. -/
theorem writesExt_doSaveCommentCheck (Q : WriteRec → Prop) (st : MState) (k : Key)
    (kind : CKind) (t : String) (hq : Q ⟨k.1, k.2, cfile kind, t⟩) :
    WritesExt Q st (doSaveCommentCheck st k kind t) := by
  unfold doSaveCommentCheck
  split
  · refine ⟨[⟨k.1, k.2, cfile kind, t⟩], rfl, ?_⟩
    intro r hr
    rw [List.mem_singleton.mp hr]
    exact hq
  · exact writesExt_refl Q st

/-- An optional publish extends the log by nothing. -/
theorem writesExt_opt_publish (Q : WriteRec → Prop) (pk : Bool) (st : MState)
    (data : List (String × JVal)) (o : Option String) :
    WritesExt Q st (match o with | some subj => doPublish pk st subj data | none => st) := by
  cases o with
  | none => exact writesExt_refl Q st
  | some s => exact writesExt_doPublish Q pk st s data

/-- One discovery step writes only `.type` records and `.last_checked`
records carrying the captured time. -/
theorem discover_item_writesExt (Q : WriteRec → Prop) (pk dr : Bool)
    (t repository : String) (st : MState) (e : String × Item)
    (hq1 : ∀ k1 k2 : String, Q ⟨k1, k2, .lastCheckedF, t⟩)
    (hq2 : ∀ (k1 k2 : String) (v : String), Q ⟨k1, k2, .typeF, plower v⟩) :
    WritesExt Q st (discover_item pk dr t repository st e) := by
  simp only [discover_item]
  cases hd : (fsGet st.fs (repository, e.1)).dirExists with
  | false =>
    cases dr with
    | false =>
      simp only [Bool.false_eq_true, if_false]
      exact writesExt_trans Q (writesExt_doPublish Q pk st _ _)
        (writesExt_trans Q (writesExt_doSaveLastChecked Q _ _ t (hq1 _ _))
          (writesExt_doSaveType Q _ _ _ (hq2 _ _ _)))
    | true =>
      simp only [if_true]
      exact writesExt_refl Q st
  | true =>
    simp only [if_true]
    exact writesExt_refl Q st

/-- One update/closed step writes only `.last_checked` records carrying
the captured time. -/
theorem process_item_writesExt (Q : WriteRec → Prop) (pk dr : Bool)
    (t repository : String) (open_items : List (String × Item)) (st : MState)
    (number : String)
    (hq1 : ∀ k1 k2 : String, Q ⟨k1, k2, .lastCheckedF, t⟩) :
    WritesExt Q st (process_item pk dr t repository open_items st number) := by
  simp only [process_item]
  cases hlk : open_items.lookup number with
  | none =>
    cases dr with
    | false =>
      simp only [Bool.false_eq_true, if_false]
      exact writesExt_trans Q (writesExt_doPublish Q pk st _ _)
        (writesExt_doSaveLastChecked Q _ _ t (hq1 _ _))
    | true =>
      simp only [if_true]
      exact writesExt_refl Q st
  | some item =>
    cases dr with
    | false =>
      simp only [Bool.false_eq_true, if_false]
      exact writesExt_trans Q (writesExt_opt_publish Q pk st _ _)
        (writesExt_doSaveLastChecked Q _ _ t (hq1 _ _))
    | true =>
      simp only [if_true]
      exact writesExt_refl Q st

/-- The discovery pass writes only `.type` records and `.last_checked`
records carrying its captured time. -/
theorem monitor_repositories_writesExt (Q : WriteRec → Prop) (pk dr : Bool) (t : String)
    (repositories : List String) (openF : String → List (String × Item)) (st : MState)
    (hq1 : ∀ k1 k2 : String, Q ⟨k1, k2, .lastCheckedF, t⟩)
    (hq2 : ∀ (k1 k2 : String) (v : String), Q ⟨k1, k2, .typeF, plower v⟩) :
    WritesExt Q st (monitor_repositories pk dr t repositories openF st) := by
  unfold monitor_repositories
  refine foldl_writesExt Q _ ?_ repositories st
  intro s repo
  exact foldl_writesExt Q _
    (fun s2 e => discover_item_writesExt Q pk dr t repo s2 e hq1 hq2) (openF repo) s

/-- The update/closed pass writes only `.last_checked` records carrying
its captured time. -/
theorem process_active_issues_writesExt (Q : WriteRec → Prop) (pk dr : Bool) (t : String)
    (openF : String → List (String × Item)) (st : MState) (active : List Key)
    (hq1 : ∀ k1 k2 : String, Q ⟨k1, k2, .lastCheckedF, t⟩) :
    WritesExt Q st (process_active_issues pk dr t openF st active) := by
  simp only [process_active_issues]
  refine foldl_writesExt Q _ ?_ (groupByRepo active) st
  intro s grp
  cases hc : ((openF grp.1).isEmpty && !grp.2.isEmpty) with
  | true =>
    simp only [if_true]
    exact writesExt_refl Q s
  | false =>
    simp only [Bool.false_eq_true, if_false]
    exact foldl_writesExt Q _
      (fun s2 n => process_item_writesExt Q pk dr t grp.1 (openF grp.1) s2 n hq1) grp.2 s

/-- The comment pass writes only comment-watermark records carrying its
captured time. -/
theorem monitor_comments_writesExt (Q : WriteRec → Prop) (pk dr : Bool) (kind : CKind)
    (t : String) (commentsF : String → Except Unit (List (String × List Comment)))
    (st : MState) (active : List Key)
    (hq : ∀ k1 k2 : String, Q ⟨k1, k2, cfile kind, t⟩) :
    WritesExt Q st (monitor_comments pk dr kind t commentsF st active) := by
  unfold monitor_comments
  refine foldl_writesExt Q _ ?_ (groupByRepo active) st
  intro s grp
  simp only [monitor_comments_repo]
  have hemit : WritesExt Q s
      (if (!(get_all_repository_comments (commentsF grp.1)
          (get_repository_last_comment_check s.fs grp.1 kind)).isEmpty) = true
        then grp.2.foldl (comment_check_item pk dr kind grp.1
          (get_all_repository_comments (commentsF grp.1)
            (get_repository_last_comment_check s.fs grp.1 kind))) s
        else s) :=
    writesExt_of_eq Q (stateCore_writes (if_foldl_core_const _ _
      (fun s2 n => comment_check_item_core_const pk dr kind grp.1 _ s2 n) _ _))
  cases dr with
  | false =>
    simp only [Bool.false_eq_true, if_false]
    exact writesExt_trans Q hemit
      (foldl_writesExt Q _
        (fun s2 n => writesExt_doSaveCommentCheck Q s2 (grp.1, n) kind t (hq _ _)) grp.2 _)
  | true =>
    simp only [if_true]
    exact hemit

/-- Claim C8, amended: each monitoring function captures its own current
time on entry, and every marker write it performs carries that captured
value — `.last_checked` writes in the discovery and update/closed passes,
comment-watermark writes in the comment pass (discovery's `.type` writes
carry the classification instead). The captures are per function, not
once per cycle, so distinct phases of one cycle can write distinct
timestamps. -/
theorem C8_amended (pk dr : Bool) (kind : CKind) (tD tP tC : String)
    (repositories : List String) (openF : String → List (String × Item))
    (commentsF : String → Except Unit (List (String × List Comment)))
    (st : MState) (active : List Key) :
    WritesExt (fun r => r.file = .typeF ∨ r.value = tD) st
      (monitor_repositories pk dr tD repositories openF st)
    ∧ WritesExt (fun r => r.value = tP) st
      (process_active_issues pk dr tP openF st active)
    ∧ WritesExt (fun r => r.value = tC) st
      (monitor_comments pk dr kind tC commentsF st active) := by
  exact ⟨monitor_repositories_writesExt _ pk dr tD repositories openF st
      (fun _ _ => Or.inr rfl) (fun _ _ _ => Or.inl rfl),
    process_active_issues_writesExt _ pk dr tP openF st active (fun _ _ => rfl),
    monitor_comments_writesExt _ pk dr kind tC commentsF st active (fun _ _ => rfl)⟩

/-- Claim C8 counterexample: a concrete cycle (one previously tracked
active issue, one newly discovered issue) in which `datetime.now` has
advanced between the phases. The cycle's marker writes carry three
different timestamps — the discovery capture, the update-pass capture and
the comment-pass capture — so the watermarks written during one cycle are
not all equal to a single cycle-start time. -/
theorem C8_counterexample :
    (run_monitoring_cycle ⟨["o/r"], false, true, true, true, true, true⟩
      { discoverIssues := fun _ => [("2", ⟨"issue", 2, "T2", "B", "u", "OPEN", "c",
          "2024-06-01T00:00:00+00:00", none, "alice", [], [], none, false,
          "MERGEABLE", none⟩)]
        discoverPrs := fun _ => []
        openIssues := fun _ => [("1", ⟨"issue", 1, "T1", "B", "u", "OPEN", "c",
          "2024-01-02T00:00:00+00:00", none, "alice", [], [], none, false,
          "MERGEABLE", none⟩)]
        openPrs := fun _ => []
        issueComments := fun _ => Except.ok []
        prComments := fun _ => Except.ok []
        probeIsPr := fun _ => false
        publishOk := true
        tDiscIssues := "2024-06-02T00:00:00+00:00"
        tDiscPrs := "2024-06-02T00:00:01+00:00"
        tProcIssues := "2024-06-02T00:00:02+00:00"
        tProcPrs := "2024-06-02T00:00:03+00:00"
        tComIssues := "2024-06-02T00:00:04+00:00"
        tComPrs := "2024-06-02T00:00:05+00:00" }
      ⟨[(("o/r", "1"),
        { dirExists := true, active := true, typeFile := some "issue",
          lastChecked := some "2024-01-01T00:00:00+00:00",
          issueCommentCheck := some "2024-01-01T00:00:00+00:00" })], [], []⟩).writes
      = [⟨"o/r", "2", .lastCheckedF, "2024-06-02T00:00:00+00:00"⟩,
         ⟨"o/r", "2", .typeF, "issue"⟩,
         ⟨"o/r", "1", .lastCheckedF, "2024-06-02T00:00:02+00:00"⟩,
         ⟨"o/r", "1", .issueCheckF, "2024-06-02T00:00:04+00:00"⟩]
    ∧ ("2024-06-02T00:00:00+00:00" : String) ≠ "2024-06-02T00:00:02+00:00"
    ∧ ("2024-06-02T00:00:02+00:00" : String) ≠ "2024-06-02T00:00:04+00:00" := by
  refine ⟨rfl, by simp, by simp⟩

/-- String equality is equality of the underlying character lists. -/
theorem str_ext {a b : String} (h : a.data = b.data) : a = b := by
  cases a
  cases b
  exact congrArg String.mk h

/-- Appending strings appends their characters. -/
theorem str_data_append (a b : String) : (a ++ b).data = a.data ++ b.data := rfl

/-- Lowercasing fixes a digit. -/
theorem plowerChar_digit (c : Char) (h : isDigitCh c = true) : plowerChar c = c := by
  simp only [isDigitCh, Bool.and_eq_true, decide_eq_true_eq] at h
  unfold plowerChar
  rw [if_neg (by
    intro hx
    simp only [Bool.and_eq_true, decide_eq_true_eq] at hx
    omega)]

/-- A unit letter is one of the four lower-case letters. -/
theorem unit_cases (u : Char) (h : unitChars.contains u = true) :
    u = 'd' ∨ u = 'h' ∨ u = 'm' ∨ u = 's' := by
  have h2 : u ∈ unitChars := by
    simpa using h
  simpa [unitChars] using h2

/-- Lowercasing fixes a unit letter. -/
theorem plowerChar_unit (u : Char) (h : unitChars.contains u = true) : plowerChar u = u := by
  rcases unit_cases u h with rfl | rfl | rfl | rfl <;> rfl

/-- A unit letter is not a digit. -/
theorem unit_not_digit (u : Char) (h : unitChars.contains u = true) :
    isDigitCh u = false := by
  rcases unit_cases u h with rfl | rfl | rfl | rfl <;> rfl

/-- A pointwise-fixed map is the identity. -/
theorem map_fix {f : Char → Char} : ∀ l : List Char, (∀ c ∈ l, f c = c) → l.map f = l := by
  intro l
  induction l with
  | nil => intro _; rfl
  | cons c rest ih =>
    intro h
    simp only [List.map_cons]
    rw [h c (List.mem_cons_self c rest), ih (fun x hx => h x (List.mem_cons_of_mem c hx))]

/-- The characters of a concatenated component list, one component at a
time. -/
theorem concatComps_cons (p : String × Char) (rest : List (String × Char)) :
    (concatComps (p :: rest)).data = p.1.data ++ p.2 :: (concatComps rest).data := by
  show ((p.1 ++ String.mk [p.2]) ++ concatComps rest).data = _
  rw [str_data_append, str_data_append]
  simp

/-- Every character of a well-formed composition is a digit or a unit. -/
theorem concatComps_chars (comps : List (String × Char)) (hwf : CompsWF comps) :
    ∀ c ∈ (concatComps comps).data, isDigitCh c = true ∨ unitChars.contains c = true := by
  induction comps with
  | nil => intro c hc; exact absurd hc (List.not_mem_nil c)
  | cons p rest ih =>
    intro c hc
    rw [concatComps_cons] at hc
    rcases List.mem_append.mp hc with h | h
    · exact Or.inl ((hwf p (List.mem_cons_self p rest)).2.1 c h)
    · rcases List.mem_cons.mp h with h2 | h2
      · subst h2
        exact Or.inr (hwf p (List.mem_cons_self p rest)).2.2
      · exact ih (fun q hq => hwf q (List.mem_cons_of_mem p hq)) c h2

/-- Lowercasing fixes a well-formed composition. -/
theorem plower_concatComps (comps : List (String × Char)) (hwf : CompsWF comps) :
    plower (concatComps comps) = concatComps comps := by
  unfold plower
  refine str_ext ?_
  show ((concatComps comps).data.map plowerChar) = (concatComps comps).data
  refine map_fix _ ?_
  intro c hc
  rcases concatComps_chars comps hwf c hc with h | h
  · exact plowerChar_digit c h
  · exact plowerChar_unit c h

/-- The scanner accumulates a leading digit run. -/
theorem findAllGo_digits : ∀ (ds : List Char) (acc rest : List Char),
    (∀ c ∈ ds, isDigitCh c = true) →
    findAllGo acc (ds ++ rest) = findAllGo (ds.reverse ++ acc) rest := by
  intro ds
  induction ds with
  | nil => intro acc rest _; simp
  | cons d ds ih =>
    intro acc rest h
    have hd : isDigitCh d = true := h d (List.mem_cons_self d ds)
    simp only [List.cons_append, List.append_eq, findAllGo, hd, if_true]
    rw [ih (d :: acc) rest (fun c hc => h c (List.mem_cons_of_mem d hc))]
    simp [List.append_assoc]

/-- The scanner recovers a well-formed composition exactly. -/
theorem findAllGo_concat (comps : List (String × Char)) (hwf : CompsWF comps) :
    findAllGo [] (concatComps comps).data = comps := by
  induction comps with
  | nil => rfl
  | cons p rest ih =>
    obtain ⟨hne, hdig, hunit⟩ := hwf p (List.mem_cons_self p rest)
    rw [concatComps_cons]
    rw [findAllGo_digits p.1.data [] (p.2 :: (concatComps rest).data) hdig]
    have hnd : isDigitCh p.2 = false := unit_not_digit p.2 hunit
    have hacc : ((p.1.data.reverse ++ []).isEmpty) = false := by
      simp only [List.append_nil, List.isEmpty_eq_false_iff_exists_mem]
      rcases List.exists_mem_of_ne_nil p.1.data hne with ⟨c, hc⟩
      exact ⟨c, List.mem_reverse.mpr hc⟩
    simp only [findAllGo, hnd, Bool.false_eq_true, if_false, hacc, Bool.not_false,
      hunit, Bool.and_self, if_true]
    rw [ih (fun q hq => hwf q (List.mem_cons_of_mem p hq))]
    simp only [List.append_nil, List.reverse_reverse]

/-- Everything the scanner returns is a nonempty digit run paired with a
unit letter. -/
theorem findAllGo_wf : ∀ (cs acc : List Char),
    (∀ c ∈ acc, isDigitCh c = true) →
    ∀ p ∈ findAllGo acc cs,
      p.1.data ≠ [] ∧ (∀ c ∈ p.1.data, isDigitCh c = true)
        ∧ unitChars.contains p.2 = true := by
  intro cs
  induction cs with
  | nil => intro acc _ p hp; exact absurd hp (List.not_mem_nil p)
  | cons c rest ih =>
    intro acc hacc p hp
    simp only [findAllGo] at hp
    by_cases hd : isDigitCh c = true
    · rw [if_pos hd] at hp
      exact ih (c :: acc) (by
        intro x hx
        rcases List.mem_cons.mp hx with h2 | h2
        · subst h2; exact hd
        · exact hacc x h2) p hp
    · rw [if_neg hd] at hp
      by_cases hc : (!acc.isEmpty && unitChars.contains c) = true
      · rw [if_pos hc] at hp
        rcases List.mem_cons.mp hp with h2 | h2
        · subst h2
          obtain ⟨hae, hcu⟩ := Bool.and_eq_true_iff.mp hc
          refine ⟨?_, ?_, hcu⟩
          · show acc.reverse ≠ []
            simp only [Bool.not_eq_eq_eq_not, Bool.not_true] at hae
            simp only [ne_eq, List.reverse_eq_nil_iff]
            intro hn
            rw [hn] at hae
            exact absurd hae (by simp)
          · intro x hx
            exact hacc x (List.mem_reverse.mp hx)
        · exact ih [] (by intro x hx; exact absurd hx (List.not_mem_nil x)) p h2
      · rw [if_neg hc] at hp
        exact ih [] (by intro x hx; exact absurd hx (List.not_mem_nil x)) p hp

/-- String concatenation is associative. -/
theorem str_append_assoc (a b c : String) : (a ++ b) ++ c = a ++ (b ++ c) :=
  str_ext (by simp [str_data_append])

/-- Joining from an accumulator splits off the accumulator. -/
theorem join_aux : ∀ (l : List String) (acc : String),
    l.foldl (fun r s => r ++ s) acc = acc ++ l.foldl (fun r s => r ++ s) "" := by
  intro l
  induction l with
  | nil => intro acc; exact (str_ext (by simp [str_data_append])).symm
  | cons s rest ih =>
    intro acc
    simp only [List.foldl_cons]
    rw [ih (acc ++ s), ih ("" ++ s), str_append_assoc]
    have h0 : ("" ++ s) = s := str_ext (by simp [str_data_append])
    rw [h0]

/-- The reconstruction in `parse_duration` is the canonical composition. -/
theorem join_eq_concat : ∀ l : List (String × Char),
    String.join (l.map (fun p => p.1 ++ String.mk [p.2])) = concatComps l := by
  intro l
  induction l with
  | nil => rfl
  | cons p rest ih =>
    show (List.foldl (fun r s => r ++ s) "" _) = _
    simp only [List.map_cons, List.foldl_cons]
    rw [join_aux]
    have h0 : ("" ++ (p.1 ++ String.mk [p.2])) = p.1 ++ String.mk [p.2] :=
      str_ext (by simp [str_data_append])
    rw [h0]
    show _ = (p.1 ++ String.mk [p.2]) ++ concatComps rest
    rw [← ih]
    rfl

/-- A nonempty composition is not the empty string. -/
theorem concatComps_ne_empty (comps : List (String × Char)) (hne : comps ≠ []) :
    (concatComps comps == "") = false := by
  refine beq_eq_false_iff_ne.mpr ?_
  intro hx
  cases comps with
  | nil => exact hne rfl
  | cons p rest =>
    have hd := congrArg String.data hx
    rw [concatComps_cons] at hd
    simp at hd

/-- Claim C7, amended: `parse_duration` accepts exactly the concatenations
of `<digits><unit>` components (after lowercasing) and returns the sum of
each component's value times its unit's length in seconds; the empty
string is rejected with an error, every accepted string lowercases to such
a concatenation, and `parse_duration "0s"` is accepted with value `0` —
it is not rejected. -/
theorem C7_amended :
    (∀ comps : List (String × Char), comps ≠ [] → CompsWF comps →
      parse_duration (concatComps comps) =
        Except.ok (comps.foldl (fun acc p => acc + natOfDigits p.1.data * unitSecs p.2) 0))
    ∧ parse_duration "" = Except.error "Duration string cannot be empty"
    ∧ (∀ (s : String) (n : Nat), parse_duration s = Except.ok n →
      ∃ comps : List (String × Char), comps ≠ [] ∧ CompsWF comps
        ∧ plower s = concatComps comps
        ∧ n = comps.foldl (fun acc p => acc + natOfDigits p.1.data * unitSecs p.2) 0)
    ∧ parse_duration "0s" = Except.ok 0 := by
  refine ⟨?_, rfl, ?_, rfl⟩
  · intro comps hne hwf
    have hlow : plower (concatComps comps) = concatComps comps :=
      plower_concatComps comps hwf
    have hfa : findAll (concatComps comps).data = comps :=
      findAllGo_concat comps hwf
    have hjoin : String.join (comps.map (fun p => p.1 ++ String.mk [p.2]))
        = concatComps comps := join_eq_concat comps
    have hisE : comps.isEmpty = false := by
      cases comps with
      | nil => exact absurd rfl hne
      | cons p rest => rfl
    simp only [parse_duration, concatComps_ne_empty comps hne, Bool.false_eq_true,
      if_false, hfa, hisE, hjoin, hlow, bne_self_eq_false]

  · intro s n h
    by_cases h0 : (s == "") = true
    · simp only [parse_duration, h0, if_true] at h
      exact absurd h (by simp)
    · simp only [parse_duration, h0, Bool.false_eq_true, if_false] at h
      by_cases hIsE : (findAll (plower s).data).isEmpty = true
      · rw [if_pos hIsE] at h
        exact absurd h (by simp)
      · rw [if_neg hIsE] at h
        by_cases hbne : (String.join ((findAll (plower s).data).map
            (fun p => p.1 ++ String.mk [p.2])) != plower s) = true
        · rw [if_pos hbne] at h
          exact absurd h (by simp)
        · rw [if_neg hbne] at h
          have hn : n = (findAll (plower s).data).foldl
              (fun acc p => acc + natOfDigits p.1.data * unitSecs p.2) 0 :=
            (Except.ok.inj h).symm
          refine ⟨findAll (plower s).data, ?_, ?_, ?_, hn⟩
          · intro hnil
            rw [hnil] at hIsE
            exact hIsE rfl
          · intro p hp
            exact findAllGo_wf (plower s).data []
              (fun x hx => absurd hx (List.not_mem_nil x)) p hp
          · have heq : String.join ((findAll (plower s).data).map
                (fun p => p.1 ++ String.mk [p.2])) = plower s := by
              have hb2 : ((String.join ((findAll (plower s).data).map
                  (fun p => p.1 ++ String.mk [p.2])) != plower s)) = false := by
                cases hx : (String.join ((findAll (plower s).data).map
                    (fun p => p.1 ++ String.mk [p.2])) != plower s) with
                | true => exact absurd hx hbne
                | false => rfl
              exact bne_eq_false_iff_eq.mp hb2
            rw [← join_eq_concat]
            exact heq.symm

/-- Witness for C7: the composition `5m` parses to 300 seconds. -/
theorem C7_amended_witness : parse_duration (concatComps [("5", 'm')]) = Except.ok 300 := by
  have h := C7_amended.1 [("5", 'm')] (by simp) (by unfold CompsWF; decide)
  exact h

/-- A fold whose every step fixes the start state returns it unchanged. -/
theorem foldl_fixed {σ α : Type} (f : σ → α → σ) :
    ∀ (l : List α) (s : σ), (∀ a ∈ l, f s a = s) → l.foldl f s = s := by
  intro l
  induction l with
  | nil => intro s _; rfl
  | cons a rest ih =>
    intro s h
    rw [List.foldl_cons, h a (List.mem_cons_self a rest)]
    exact ih s (fun a' ha' => h a' (List.mem_cons_of_mem a ha'))

/-- `foldl_preserve` with the visited element's membership available to the
step hypothesis, over an arbitrary accumulator type. -/
theorem foldl_preserve_mem {σ α : Type} (P : σ → Prop) (f : σ → α → σ) :
    ∀ (l : List α), (∀ s a, a ∈ l → P s → P (f s a)) → ∀ s, P s → P (l.foldl f s) := by
  intro l
  induction l with
  | nil => intro _ s hs; exact hs
  | cons a rest ih =>
    intro hf s hs
    rw [List.foldl_cons]
    exact ih (fun s' a' ha' => hf s' a' (List.mem_cons_of_mem a ha')) (f s a)
      (hf s a (List.mem_cons_self a rest) hs)

/-- Writing `.last_checked` rewrites exactly the target directory's state. -/
theorem fsGet_doSaveLastChecked_self (st : MState) (k : Key) (t : String) :
    fsGet (doSaveLastChecked st k t).fs k
      = { fsGet st.fs k with dirExists := true, lastChecked := some t } := by
  simp only [doSaveLastChecked]
  exact fsGet_fsSet_self st.fs k _

/-- Writing `.last_checked` leaves every other directory untouched. -/
theorem fsGet_doSaveLastChecked_other (st : MState) (k k' : Key) (t : String)
    (h : k' ≠ k) : fsGet (doSaveLastChecked st k t).fs k' = fsGet st.fs k' := by
  simp only [doSaveLastChecked]
  exact fsGet_fsSet_other st.fs k k' _ h

/-- Writing `.type` rewrites exactly the target directory's state. -/
theorem fsGet_doSaveType_self (st : MState) (k : Key) (v : String) :
    fsGet (doSaveType st k v).fs k
      = { fsGet st.fs k with dirExists := true, typeFile := some (plower v) } := by
  simp only [doSaveType]
  exact fsGet_fsSet_self st.fs k _

/-- Writing `.type` leaves every other directory untouched. -/
theorem fsGet_doSaveType_other (st : MState) (k k' : Key) (v : String)
    (h : k' ≠ k) : fsGet (doSaveType st k v).fs k' = fsGet st.fs k' := by
  simp only [doSaveType]
  exact fsGet_fsSet_other st.fs k k' _ h

/-- A `.type` file holding the lowercase form of `issue` or `pr` reads back
as a valid cached type. -/
theorem get_type_eq_of_typeFile (fs : FS) (k : Key) (v : String)
    (hv : v = "issue" ∨ v = "pr") (h : (fsGet fs k).typeFile = some (plower v)) :
    get_type_from_file fs k = some v := by
  unfold get_type_from_file
  rw [h]
  rcases hv with h' | h' <;> subst h' <;> rfl

/-- Reading the cached `.type` right after `save_type_to_file` wrote a
valid value gives that value back. -/
theorem get_type_doSaveType_self (st : MState) (k : Key) (v : String)
    (hv : v = "issue" ∨ v = "pr") :
    get_type_from_file (doSaveType st k v).fs k = some v := by
  refine get_type_eq_of_typeFile _ k v hv ?_
  rw [fsGet_doSaveType_self]

/-- `save_type_to_file` does not disturb the cached type of other items. -/
theorem get_type_doSaveType_other (st : MState) (k k' : Key) (v : String)
    (h : k' ≠ k) :
    get_type_from_file (doSaveType st k v).fs k' = get_type_from_file st.fs k' := by
  unfold get_type_from_file
  rw [fsGet_doSaveType_other st k k' v h]

/-- `is_pull_request` with a readable cached `.type` answers from the cache
and performs no write at all. -/
theorem is_pull_request_cached (probe : Key → Bool) (st : MState) (k : Key) (v : String)
    (h : get_type_from_file st.fs k = some v) :
    is_pull_request probe st k = ((v == "pr"), st) := by
  unfold is_pull_request
  rw [h]

/-- `is_pull_request` without a readable cached `.type` probes the remote
and caches the probe's answer. -/
theorem is_pull_request_probe (probe : Key → Bool) (st : MState) (k : Key)
    (h : get_type_from_file st.fs k = none) :
    is_pull_request probe st k
      = (probe k, doSaveType st k (if probe k then "pr" else "issue")) := by
  unfold is_pull_request
  rw [h]

/-- The state `is_pull_request` returns is either untouched or has a
freshly cached valid `.type` for the queried key. -/
theorem is_pull_request_snd_cases (probe : Key → Bool) (st : MState) (k : Key) :
    (is_pull_request probe st k).2 = st ∨
      ∃ v, (v = "issue" ∨ v = "pr") ∧
        (is_pull_request probe st k).2 = doSaveType st k v := by
  cases hty : get_type_from_file st.fs k with
  | some v =>
    rw [is_pull_request_cached probe st k v hty]
    exact Or.inl rfl
  | none =>
    rw [is_pull_request_probe probe st k hty]
    refine Or.inr ⟨if probe k then "pr" else "issue", ?_, rfl⟩
    cases probe k
    · exact Or.inl rfl
    · exact Or.inr rfl

/-- The state component of one classification step is the state
`is_pull_request` returns. -/
theorem classify_step_fst (probe : Key → Bool) (acc : MState × List Key × List Key)
    (k : Key) : (classify_step probe acc k).1 = (is_pull_request probe acc.1 k).2 := by
  simp only [classify_step]
  cases hr : (is_pull_request probe acc.1 k).1 <;> simp [hr]

/-- A state property preserved by every `is_pull_request` call along the
classification loop is preserved by the whole loop. -/
theorem classify_foldl_state_mem (probe : Key → Bool) (P : MState → Prop) :
    ∀ (items : List Key),
      (∀ (s : MState) (k : Key), k ∈ items → P s → P (is_pull_request probe s k).2) →
      ∀ (acc : MState × List Key × List Key),
        P acc.1 → P ((items.foldl (classify_step probe) acc).1) := by
  intro items
  induction items with
  | nil => intro _ acc h; exact h
  | cons k rest ih =>
    intro hstep acc h
    rw [List.foldl_cons]
    refine ih (fun s k' hk' hs => hstep s k' (List.mem_cons_of_mem k hk') hs) _ ?_
    rw [classify_step_fst]
    exact hstep acc.1 k (List.mem_cons_self k rest) h

/-- After the classification loop, every visited item has a readable
cached `.type`. -/
theorem classify_foldl_types (probe : Key → Bool) :
    ∀ (items : List Key) (acc : MState × List Key × List Key) (k : Key), k ∈ items →
      get_type_from_file ((items.foldl (classify_step probe) acc).1).fs k ≠ none := by
  intro items
  induction items with
  | nil => intro acc k hk; cases hk
  | cons k0 rest ih =>
    intro acc k hk
    rw [List.foldl_cons]
    rcases List.mem_cons.mp hk with he | hm
    · subst he
      have h1 : get_type_from_file ((classify_step probe acc k).1).fs k ≠ none := by
        rw [classify_step_fst]
        cases hty : get_type_from_file acc.1.fs k with
        | some v =>
          rw [is_pull_request_cached probe acc.1 k v hty, hty]
          simp
        | none =>
          rw [is_pull_request_probe probe acc.1 k hty]
          have hval : (if probe k then "pr" else "issue") = "issue"
              ∨ (if probe k then "pr" else "issue") = "pr" := by
            cases probe k
            · exact Or.inl rfl
            · exact Or.inr rfl
          rw [get_type_doSaveType_self acc.1 k _ hval]
          simp
      refine classify_foldl_state_mem probe
        (fun s => get_type_from_file s.fs k ≠ none) rest ?_ _ h1
      intro s k1 _ hP
      rcases is_pull_request_snd_cases probe s k1 with h | ⟨v, hv, h⟩
      · rw [h]; exact hP
      · rw [h]
        by_cases hk1 : k = k1
        · subst hk1
          rw [get_type_doSaveType_self s k v hv]
          simp
        · rw [get_type_doSaveType_other s k1 k v hk1]; exact hP
    · exact ih _ k hm

/-- When every visited item already has a readable cached `.type`, the
classification loop performs no write and returns the state unchanged. -/
theorem classify_foldl_fst_id (probe : Key → Bool) (st : MState) :
    ∀ (items : List Key), (∀ k ∈ items, get_type_from_file st.fs k ≠ none) →
      ∀ (l1 l2 : List Key), (items.foldl (classify_step probe) (st, l1, l2)).1 = st := by
  intro items
  induction items with
  | nil => intro _ l1 l2; rfl
  | cons k rest ih =>
    intro h l1 l2
    rw [List.foldl_cons]
    cases hty : get_type_from_file st.fs k with
    | none => exact absurd hty (h k (List.mem_cons_self k rest))
    | some v =>
      have hstep : classify_step probe (st, l1, l2) k
          = if (v == "pr") = true then (st, l1, l2 ++ [k]) else (st, l1 ++ [k], l2) := by
        simp only [classify_step, is_pull_request_cached probe st k v hty]
      rw [hstep]
      cases hvp : v == "pr"
      · simp only [Bool.false_eq_true, if_false]
        exact ih (fun k' hk' => h k' (List.mem_cons_of_mem k hk')) (l1 ++ [k]) l2
      · simp only [if_true]
        exact ih (fun k' hk' => h k' (List.mem_cons_of_mem k hk')) l1 (l2 ++ [k])

/-- `classify_items` over fully cached items is a pure read. -/
theorem classify_items_fst_of_types (probe : Key → Bool) (st : MState) (items : List Key)
    (h : ∀ k ∈ items, get_type_from_file st.fs k ≠ none) :
    (classify_items probe st items).1 = st :=
  classify_foldl_fst_id probe st items h [] []

/-- Classification either leaves a directory's state alone or, for a
visited item only, caches a valid `.type` into it. -/
theorem classify_items_fsGet (probe : Key → Bool) (st : MState) (items : List Key)
    (k' : Key) :
    fsGet (classify_items probe st items).1.fs k' = fsGet st.fs k' ∨
      (k' ∈ items ∧ ∃ v, (v = "issue" ∨ v = "pr") ∧
        fsGet (classify_items probe st items).1.fs k'
          = { fsGet st.fs k' with dirExists := true, typeFile := some (plower v) }) := by
  unfold classify_items
  refine classify_foldl_state_mem probe
    (fun s => fsGet s.fs k' = fsGet st.fs k' ∨
      (k' ∈ items ∧ ∃ v, (v = "issue" ∨ v = "pr") ∧
        fsGet s.fs k' = { fsGet st.fs k' with dirExists := true, typeFile := some (plower v) })) items ?_ (st, [], []) (Or.inl rfl)
  intro s k hk hP
  rcases is_pull_request_snd_cases probe s k with h | ⟨v, hv, h⟩
  · rw [h]; exact hP
  · rw [h]
    by_cases hkk : k' = k
    · subst hkk
      rw [fsGet_doSaveType_self]
      rcases hP with h1 | ⟨_, v0, _, h2⟩
      · exact Or.inr ⟨hk, v, hv, by rw [h1]⟩
      · exact Or.inr ⟨hk, v, hv, by rw [h2]⟩
    · rw [fsGet_doSaveType_other s k k' v hkk]
      exact hP

/-- Membership in a repository group after appending one number. -/
theorem addToGroup_spec :
    ∀ (groups : List (String × List String)) (r0 n0 r n : String),
      (∃ g ∈ addToGroup groups r0 n0, g.1 = r ∧ n ∈ g.2) →
      (∃ g ∈ groups, g.1 = r ∧ n ∈ g.2) ∨ (r = r0 ∧ n = n0) := by
  intro groups
  induction groups with
  | nil =>
    intro r0 n0 r n h
    obtain ⟨g, hg, h1, h2⟩ := h
    simp only [addToGroup, List.mem_singleton] at hg
    subst hg
    rw [List.mem_singleton.mp h2]
    exact Or.inr ⟨h1.symm, rfl⟩
  | cons p rest ih =>
    intro r0 n0 r n h
    obtain ⟨g, hg, h1, h2⟩ := h
    simp only [addToGroup] at hg
    cases hpr : p.1 == r0 with
    | true =>
      rw [hpr, if_pos rfl] at hg
      rcases List.mem_cons.mp hg with he | hm
      · subst he
        have h1' : p.1 = r := h1
        have h2' : n ∈ p.2 ++ [n0] := h2
        rcases List.mem_append.mp h2' with hn | hn
        · exact Or.inl ⟨p, List.mem_cons_self p rest, h1', hn⟩
        · refine Or.inr ⟨?_, List.mem_singleton.mp hn⟩
          rw [← h1']
          exact eq_of_beq hpr
      · exact Or.inl ⟨g, List.mem_cons_of_mem p hm, h1, h2⟩
    | false =>
      rw [hpr, if_neg (by simp)] at hg
      rcases List.mem_cons.mp hg with he | hm
      · subst he
        exact Or.inl ⟨p, List.mem_cons_self p rest, h1, h2⟩
      · rcases ih r0 n0 r n ⟨g, hm, h1, h2⟩ with h' | h'
        · obtain ⟨g', hg', hh⟩ := h'
          exact Or.inl ⟨g', List.mem_cons_of_mem p hg', hh⟩
        · exact Or.inr h'

/-- Unfolding the grouping fold: a number found in some group either came
from the seed accumulator or is one of the folded active items. -/
theorem groupFold_mem :
    ∀ (active : List Key) (acc : List (String × List String)) (r n : String),
      (∃ g ∈ active.foldl (fun acc e => addToGroup acc e.1 e.2) acc, g.1 = r ∧ n ∈ g.2) →
      (∃ g ∈ acc, g.1 = r ∧ n ∈ g.2) ∨ (r, n) ∈ active := by
  intro active
  induction active with
  | nil => intro acc r n h; exact Or.inl h
  | cons e rest ih =>
    intro acc r n h
    rw [List.foldl_cons] at h
    rcases ih (addToGroup acc e.1 e.2) r n h with h' | h'
    · rcases addToGroup_spec acc e.1 e.2 r n h' with h'' | ⟨hr, hn⟩
      · exact Or.inl h''
      · right
        subst hr hn
        exact List.mem_cons_self e rest
    · exact Or.inr (List.mem_cons_of_mem e h')

/-- Every number of every group of `issues_by_repo` is one of the active
items that were grouped. -/
theorem groupByRepo_mem (active : List Key) (g : String × List String)
    (hg : g ∈ groupByRepo active) (n : String) (hn : n ∈ g.2) : (g.1, n) ∈ active := by
  rcases groupFold_mem active [] g.1 n ⟨g, hg, rfl, hn⟩ with h | h
  · obtain ⟨g', hg', _⟩ := h
    cases hg'
  · exact h

/-- An item the active scan returns has an existing directory in a tracked
repository and passes the `active_only` restriction. -/
theorem find_active_issues_mem (fs : FS) (ao : Bool) (repos : List String) (k : Key)
    (h : k ∈ find_active_issues fs ao repos) :
    (fsGet fs k).dirExists = true ∧ repos.contains k.1 = true
      ∧ (!ao || (fsGet fs k).active) = true := by
  unfold find_active_issues at h
  rcases List.mem_filterMap.mp h with ⟨k0, _, hsome⟩
  by_cases hc : ((fsGet fs k0).dirExists && repos.contains k0.1
      && (!ao || (fsGet fs k0).active)) = true
  · rw [if_pos hc] at hsome
    cases hsome
    rw [Bool.and_eq_true, Bool.and_eq_true] at hc
    exact ⟨hc.1.1, hc.1.2, hc.2⟩
  · rw [if_neg hc] at hsome
    cases hsome

/-- Discovery of an item whose directory already exists is a no-op. -/
theorem discover_item_existing (pk dr : Bool) (t repo : String) (s : MState)
    (e : String × Item) (h : (fsGet s.fs (repo, e.1)).dirExists = true) :
    discover_item pk dr t repo s e = s := by
  simp only [discover_item, h, if_true]

/-- One discovery step never removes a directory. -/
theorem discover_item_dirEx_mono (pk dr : Bool) (t repo : String) (s : MState)
    (e : String × Item) (k : Key) (h : (fsGet s.fs k).dirExists = true) :
    (fsGet (discover_item pk dr t repo s e).fs k).dirExists = true := by
  simp only [discover_item]
  cases hd : (fsGet s.fs (repo, e.1)).dirExists with
  | true => rw [if_pos rfl]; exact h
  | false =>
    rw [if_neg (by simp)]
    cases dr with
    | true => rw [if_pos rfl]; exact h
    | false =>
      rw [if_neg (by simp)]
      by_cases hk : k = (repo, e.1)
      · subst hk
        rw [fsGet_doSaveType_self]
      · rw [fsGet_doSaveType_other _ _ _ _ hk,
          fsGet_doSaveLastChecked_other _ _ _ _ hk, doPublish_fs]
        exact h

/-- With the unconditional identity hypothesis discharged per item,
discovery over repositories whose every open item already has a directory
is the identity. -/
theorem monitor_repositories_id (pk dr : Bool) (t : String) (repos : List String)
    (openF : String → List (String × Item)) (st : MState)
    (h : ∀ repo ∈ repos, ∀ e ∈ openF repo, (fsGet st.fs (repo, e.1)).dirExists = true) :
    monitor_repositories pk dr t repos openF st = st := by
  unfold monitor_repositories
  refine foldl_fixed _ repos st ?_
  intro r hr
  exact foldl_fixed _ (openF r) st
    (fun e he => discover_item_existing pk dr t r st e (h r hr e he))

/-- After one repository's discovery loop (not a dry run), every listed
open item has an item directory. -/
theorem discover_fold_covers (pk : Bool) (t repo : String) :
    ∀ (items : List (String × Item)) (s : MState) (e0 : String × Item), e0 ∈ items →
      (fsGet ((items.foldl (discover_item pk false t repo) s).fs) (repo, e0.1)).dirExists
        = true := by
  intro items
  induction items with
  | nil => intro s e0 h; cases h
  | cons e rest ih =>
    intro s e0 h0
    rw [List.foldl_cons]
    rcases List.mem_cons.mp h0 with he | hm
    · subst he
      have h1 : (fsGet (discover_item pk false t repo s e0).fs (repo, e0.1)).dirExists
          = true := by
        simp only [discover_item]
        cases hd : (fsGet s.fs (repo, e0.1)).dirExists with
        | true => rw [if_pos rfl]; exact hd
        | false =>
          rw [if_neg (by simp), if_neg (by simp)]
          rw [fsGet_doSaveType_self]
      exact foldl_preserve (fun s' => (fsGet s'.fs (repo, e0.1)).dirExists = true) _
        (fun s' a h' => discover_item_dirEx_mono pk false t repo s' a _ h') rest _ h1
    · exact ih _ e0 hm

/-- After a full discovery pass (not a dry run), every open item of every
tracked repository has an item directory. -/
theorem monitor_repositories_covers (pk : Bool) (t : String)
    (openF : String → List (String × Item)) :
    ∀ (repos : List String) (st : MState) (repo : String) (e : String × Item),
      repo ∈ repos → e ∈ openF repo →
      (fsGet ((monitor_repositories pk false t repos openF st).fs) (repo, e.1)).dirExists
        = true := by
  intro repos
  induction repos with
  | nil => intro st repo e h _; cases h
  | cons r rest ih =>
    intro st repo e hr he
    unfold monitor_repositories
    rw [List.foldl_cons]
    rcases List.mem_cons.mp hr with hre | hrm
    · subst hre
      have h1 := discover_fold_covers pk t repo (openF repo) st e he
      refine foldl_preserve (fun s' => (fsGet s'.fs (repo, e.1)).dirExists = true)
        _ ?_ rest _ h1
      intro s' r' h'
      exact foldl_preserve (fun s'' => (fsGet s''.fs (repo, e.1)).dirExists = true) _
        (fun s'' a h'' => discover_item_dirEx_mono pk false t r' s'' a _ h'') (openF r') s' h'
    · have hrec := ih ((openF r).foldl (discover_item pk false t r) st) repo e hrm he
      unfold monitor_repositories at hrec
      exact hrec

/-- Discovery leaves every already-existing directory's state untouched,
and every record it writes names an item whose directory did not exist
when the pass started. -/
theorem monitor_repositories_untouched (pk dr : Bool) (t : String) (repos : List String)
    (openF : String → List (String × Item)) (st : MState) :
    (∀ k, (fsGet st.fs k).dirExists = true →
        fsGet (monitor_repositories pk dr t repos openF st).fs k = fsGet st.fs k)
    ∧ WritesExt (fun r => (fsGet st.fs (r.repo, r.number)).dirExists = false) st
        (monitor_repositories pk dr t repos openF st) := by
  unfold monitor_repositories
  have hmain : (∀ k, (fsGet st.fs k).dirExists = true →
        fsGet (repos.foldl (fun s repo => (openF repo).foldl
          (discover_item pk dr t repo) s) st).fs k = fsGet st.fs k)
      ∧ WritesExt (fun r => (fsGet st.fs (r.repo, r.number)).dirExists = false) st
        (repos.foldl (fun s repo =>
          (openF repo).foldl (discover_item pk dr t repo) s) st) := by
    refine foldl_preserve (fun s =>
      (∀ k, (fsGet st.fs k).dirExists = true → fsGet s.fs k = fsGet st.fs k)
        ∧ WritesExt (fun r => (fsGet st.fs (r.repo, r.number)).dirExists = false) st s)
      _ ?_ repos st ⟨fun _ _ => rfl, writesExt_refl _ st⟩
    intro s repo hs
    refine foldl_preserve (fun s' =>
      (∀ k, (fsGet st.fs k).dirExists = true → fsGet s'.fs k = fsGet st.fs k)
        ∧ WritesExt (fun r => (fsGet st.fs (r.repo, r.number)).dirExists = false) st s')
      _ ?_ (openF repo) s hs
    intro s' e hs'
    obtain ⟨hfs, hwr⟩ := hs'
    simp only [discover_item]
    cases hd : (fsGet s'.fs (repo, e.1)).dirExists with
    | true =>
      rw [if_pos rfl]
      exact ⟨hfs, hwr⟩
    | false =>
      rw [if_neg (by simp)]
      cases dr with
      | true =>
        rw [if_pos rfl]
        exact ⟨hfs, hwr⟩
      | false =>
        rw [if_neg (by simp)]
        have hkey : (fsGet st.fs (repo, e.1)).dirExists = false := by
          cases hd0 : (fsGet st.fs (repo, e.1)).dirExists with
          | false => rfl
          | true =>
            rw [hfs (repo, e.1) hd0] at hd
            rw [hd0] at hd
            cases hd
        constructor
        · intro k hk
          have hne : k ≠ (repo, e.1) := by
            intro hcontra
            rw [hcontra, hkey] at hk
            cases hk
          rw [fsGet_doSaveType_other _ _ _ _ hne,
            fsGet_doSaveLastChecked_other _ _ _ _ hne, doPublish_fs]
          exact hfs k hk
        · refine writesExt_trans _ hwr ?_
          refine writesExt_trans _ ?_
            (writesExt_doSaveType _ _ (repo, e.1) e.2.type hkey)
          exact writesExt_trans _ (writesExt_doPublish _ pk s' _ _)
            (writesExt_doSaveLastChecked _ _ (repo, e.1) t hkey)
  exact hmain

/-- Full effect of a discovery pass on one directory: either untouched, or
the directory did not exist, was created, and got `.last_checked` plus a
`.type` holding a valid discovered item kind. -/
theorem monitor_repositories_fsGet (pk dr : Bool) (t : String) (repos : List String)
    (openF : String → List (String × Item)) (st : MState)
    (hv : ∀ repo, ∀ e ∈ openF repo, e.2.type = "issue" ∨ e.2.type = "pr") :
    ∀ k, fsGet (monitor_repositories pk dr t repos openF st).fs k = fsGet st.fs k ∨
      ((fsGet st.fs k).dirExists = false ∧ ∃ v, (v = "issue" ∨ v = "pr") ∧
        fsGet (monitor_repositories pk dr t repos openF st).fs k
          = { fsGet st.fs k with dirExists := true, lastChecked := some t, typeFile := some (plower v) }) := by
  unfold monitor_repositories
  refine foldl_preserve (fun s => ∀ k, fsGet s.fs k = fsGet st.fs k ∨
      ((fsGet st.fs k).dirExists = false ∧ ∃ v, (v = "issue" ∨ v = "pr") ∧
        fsGet s.fs k = { fsGet st.fs k with dirExists := true, lastChecked := some t, typeFile := some (plower v) }))
    _ ?_ repos st (fun _ => Or.inl rfl)
  intro s repo hs
  refine foldl_preserve_mem (fun s' => ∀ k, fsGet s'.fs k = fsGet st.fs k ∨
      ((fsGet st.fs k).dirExists = false ∧ ∃ v, (v = "issue" ∨ v = "pr") ∧
        fsGet s'.fs k = { fsGet st.fs k with dirExists := true, lastChecked := some t, typeFile := some (plower v) }))
    _ (openF repo) ?_ s hs
  intro s' e he hs' k
  simp only [discover_item]
  cases hd : (fsGet s'.fs (repo, e.1)).dirExists with
  | true =>
    rw [if_pos rfl]
    exact hs' k
  | false =>
    rw [if_neg (by simp)]
    cases dr with
    | true =>
      rw [if_pos rfl]
      exact hs' k
    | false =>
      rw [if_neg (by simp)]
      by_cases hk : k = (repo, e.1)
      · subst hk
        rw [fsGet_doSaveType_self, fsGet_doSaveLastChecked_self, doPublish_fs]
        rcases hs' (repo, e.1) with h1 | ⟨hd0, v0, _, h2⟩
        · right
          refine ⟨?_, e.2.type, hv repo e he, ?_⟩
          · rw [← h1]; exact hd
          · rw [h1]
        · rw [h2] at hd
          cases hd
      · rw [fsGet_doSaveType_other _ _ _ _ hk,
          fsGet_doSaveLastChecked_other _ _ _ _ hk, doPublish_fs]
        exact hs' k

/-- An optional publish never touches the filesystem. -/
theorem opt_publish_fs (pk : Bool) (st : MState) (data : List (String × JVal))
    (o : Option String) :
    (match o with | some subj => doPublish pk st subj data | none => st).fs = st.fs := by
  cases o with
  | none => rfl
  | some s => exact doPublish_fs pk st s data

/-- One update-pass item either leaves a directory alone or rewrites
exactly its own directory's `.last_checked` (also marking it existing). -/
theorem process_item_fsGet (pk dr : Bool) (t repository : String)
    (open_items : List (String × Item)) (st : MState) (number : String) (k : Key) :
    fsGet (process_item pk dr t repository open_items st number).fs k = fsGet st.fs k ∨
      (k = (repository, number) ∧
        fsGet (process_item pk dr t repository open_items st number).fs k
          = { fsGet st.fs k with dirExists := true, lastChecked := some t }) := by
  simp only [process_item]
  cases hlk : open_items.lookup number with
  | none =>
    cases dr with
    | true =>
      simp only [if_true]
      exact Or.inl trivial
    | false =>
      simp only [Bool.false_eq_true, if_false]
      by_cases hk : k = (repository, number)
      · subst hk
        right
        refine ⟨rfl, ?_⟩
        rw [fsGet_doSaveLastChecked_self, doPublish_fs]
      · left
        rw [fsGet_doSaveLastChecked_other _ _ _ _ hk, doPublish_fs]
  | some item =>
    cases dr with
    | true =>
      simp only [if_true]
      exact Or.inl trivial
    | false =>
      simp only [Bool.false_eq_true, if_false]
      by_cases hk : k = (repository, number)
      · subst hk
        right
        refine ⟨rfl, ?_⟩
        rw [fsGet_doSaveLastChecked_self, opt_publish_fs]
      · left
        rw [fsGet_doSaveLastChecked_other _ _ _ _ hk, opt_publish_fs]

/-- Full effect of one update pass on one directory: either untouched, or
the item was in the active list and its `.last_checked` now holds the
pass's captured time. -/
theorem process_active_issues_fsGet (pk dr : Bool) (t : String)
    (openF : String → List (String × Item)) (st : MState) (active : List Key) (k : Key) :
    fsGet (process_active_issues pk dr t openF st active).fs k = fsGet st.fs k ∨
      (k ∈ active ∧ fsGet (process_active_issues pk dr t openF st active).fs k
        = { fsGet st.fs k with dirExists := true, lastChecked := some t }) := by
  simp only [process_active_issues]
  refine foldl_preserve_mem (fun s => fsGet s.fs k = fsGet st.fs k ∨
      (k ∈ active ∧ fsGet s.fs k = { fsGet st.fs k with dirExists := true, lastChecked := some t }))
    _ (groupByRepo active) ?_ st (Or.inl rfl)
  intro s grp hgrp hs
  cases hc : ((openF grp.1).isEmpty && !grp.2.isEmpty) with
  | true =>
    rw [if_pos rfl]
    exact hs
  | false =>
    rw [if_neg (by simp)]
    refine foldl_preserve_mem (fun s' => fsGet s'.fs k = fsGet st.fs k ∨
        (k ∈ active ∧ fsGet s'.fs k = { fsGet st.fs k with dirExists := true, lastChecked := some t }))
      _ grp.2 ?_ s hs
    intro s' n hn hs'
    rcases process_item_fsGet pk dr t grp.1 (openF grp.1) s' n k with h1 | ⟨hk, h2⟩
    · rw [h1]
      exact hs'
    · right
      refine ⟨?_, ?_⟩
      · rw [hk]
        exact groupByRepo_mem active grp hgrp n hn
      · rw [h2]
        rcases hs' with h3 | ⟨_, h3⟩ <;> rw [h3]

/-- Setting the same watermark twice equals setting it once. -/
theorem setCommentFld_idem (s : ItemState) (kind : CKind) (t : String) :
    setCommentFld (setCommentFld s kind t) kind t = setCommentFld s kind t := by
  cases kind <;> rfl

/-- One comment-watermark write either leaves a directory alone or rewrites
exactly the target's watermark of the pass's kind. -/
theorem fsGet_doSaveCommentCheck (st : MState) (kk k : Key) (kind : CKind) (t : String) :
    fsGet (doSaveCommentCheck st kk kind t).fs k = fsGet st.fs k ∨
      (k = kk ∧ fsGet (doSaveCommentCheck st kk kind t).fs k
        = setCommentFld (fsGet st.fs k) kind t) := by
  unfold doSaveCommentCheck
  split
  · by_cases hk : k = kk
    · subst hk
      exact Or.inr ⟨rfl, fsGet_fsSet_self _ _ _⟩
    · exact Or.inl (fsGet_fsSet_other _ _ _ _ hk)
  · exact Or.inl rfl

/-- The comment emission loop only publishes; it never touches the tree. -/
theorem comment_fold_fs (pk dr : Bool) (kind : CKind) (repository : String)
    (ac : List (String × List Comment)) (l : List String) (s0 : MState) :
    (l.foldl (comment_check_item pk dr kind repository ac) s0).fs = s0.fs := by
  refine foldl_preserve (fun s' => s'.fs = s0.fs) _ ?_ l s0 rfl
  intro s' n h
  rw [stateCore_fs (comment_check_item_core_const pk dr kind repository ac s' n), h]

/-- Full effect of one repository's comment pass on one directory: either
untouched, or the item was listed for this repository and its watermark of
the pass's kind now holds the pass's captured time. -/
theorem monitor_comments_repo_fsGet (pk dr : Bool) (kind : CKind) (t : String)
    (commentsF : String → Except Unit (List (String × List Comment)))
    (s : MState) (grp : String × List String) (k : Key) :
    fsGet (monitor_comments_repo pk dr kind t commentsF s grp).fs k = fsGet s.fs k ∨
      ((∃ n ∈ grp.2, k = (grp.1, n)) ∧
        fsGet (monitor_comments_repo pk dr kind t commentsF s grp).fs k
          = setCommentFld (fsGet s.fs k) kind t) := by
  simp only [monitor_comments_repo]
  have hST1 : (if (!(get_all_repository_comments (commentsF grp.1)
        (get_repository_last_comment_check s.fs grp.1 kind)).isEmpty) = true then
        grp.2.foldl (comment_check_item pk dr kind grp.1
          (get_all_repository_comments (commentsF grp.1)
            (get_repository_last_comment_check s.fs grp.1 kind))) s
      else s).fs = s.fs := by
    split
    · exact comment_fold_fs pk dr kind grp.1 _ grp.2 s
    · rfl
  cases dr with
  | true =>
    simp only [if_true]
    left
    rw [hST1]
  | false =>
    simp only [Bool.false_eq_true, if_false]
    refine foldl_preserve_mem (fun s' : MState => fsGet s'.fs k = fsGet s.fs k ∨
        ((∃ n ∈ grp.2, k = (grp.1, n)) ∧
          fsGet s'.fs k = setCommentFld (fsGet s.fs k) kind t))
      _ grp.2 ?_ _ (Or.inl (by rw [hST1]))
    intro s' n hn hs'
    rcases fsGet_doSaveCommentCheck s' (grp.1, n) k kind t with h1 | ⟨hk, h2⟩
    · rw [h1]
      exact hs'
    · right
      refine ⟨⟨n, hn, hk⟩, ?_⟩
      rw [h2]
      rcases hs' with h3 | ⟨_, h3⟩
      · rw [h3]
      · rw [h3, setCommentFld_idem]

/-- Full effect of a comment pass on one directory: either untouched, or
the item was active and its watermark of the pass's kind now holds the
pass's captured time. -/
theorem monitor_comments_fsGet (pk dr : Bool) (kind : CKind) (t : String)
    (commentsF : String → Except Unit (List (String × List Comment)))
    (st : MState) (active : List Key) (k : Key) :
    fsGet (monitor_comments pk dr kind t commentsF st active).fs k = fsGet st.fs k ∨
      (k ∈ active ∧ fsGet (monitor_comments pk dr kind t commentsF st active).fs k
        = setCommentFld (fsGet st.fs k) kind t) := by
  unfold monitor_comments
  refine foldl_preserve_mem (fun s => fsGet s.fs k = fsGet st.fs k ∨
      (k ∈ active ∧ fsGet s.fs k = setCommentFld (fsGet st.fs k) kind t))
    _ (groupByRepo active) ?_ st (Or.inl rfl)
  intro s grp hgrp hs
  rcases monitor_comments_repo_fsGet pk dr kind t commentsF s grp k with h1 | ⟨⟨n, hn, hk⟩, h2⟩
  · rw [h1]
    exact hs
  · right
    refine ⟨?_, ?_⟩
    · rw [hk]
      exact groupByRepo_mem active grp hgrp n hn
    · rw [h2]
      rcases hs with h3 | ⟨_, h3⟩
      · rw [h3]
      · rw [h3, setCommentFld_idem]

/-- The cached type only depends on the `.type` content. -/
theorem get_type_eq_of_same_typeFile (fs1 fs2 : FS) (k : Key)
    (h : (fsGet fs1 k).typeFile = (fsGet fs2 k).typeFile) :
    get_type_from_file fs1 k = get_type_from_file fs2 k := by
  unfold get_type_from_file
  rw [h]

/-- Setting a comment watermark touches no other field. -/
theorem setCommentFld_fields (s : ItemState) (kind : CKind) (t : String) :
    (setCommentFld s kind t).dirExists = s.dirExists
      ∧ (setCommentFld s kind t).active = s.active
      ∧ (setCommentFld s kind t).typeFile = s.typeFile := by
  cases kind <;> exact ⟨rfl, rfl, rfl⟩

/-- A key whose directory exists occurs in the tree's key list. -/
theorem fsGet_mem_of_dirEx : ∀ (fs : FS) (k : Key),
    (fsGet fs k).dirExists = true → k ∈ fs.map Prod.fst := by
  intro fs
  induction fs with
  | nil => intro k h; cases h
  | cons e rest ih =>
    intro k h
    rw [List.map_cons]
    by_cases he : e.1 = k
    · rw [he]
      exact List.mem_cons_self k _
    · refine List.mem_cons_of_mem e.1 (ih k ?_)
      rw [fsGet, if_neg he] at h
      exact h

/-- An existing directory of a tracked repository that passes the
`active_only` restriction is returned by the active scan. -/
theorem find_active_issues_complete (fs : FS) (ao : Bool) (repos : List String) (k : Key)
    (h1 : (fsGet fs k).dirExists = true) (h2 : repos.contains k.1 = true)
    (h3 : (!ao || (fsGet fs k).active) = true) :
    k ∈ find_active_issues fs ao repos := by
  unfold find_active_issues
  refine List.mem_filterMap.mpr ⟨k, fsGet_mem_of_dirEx fs k h1, ?_⟩
  rw [if_pos]
  rw [h1, h2, h3]
  rfl

/-- Items the classification splits into its two lists all come from the
scanned list (or the seed accumulator). -/
theorem classify_foldl_mem (probe : Key → Bool) :
    ∀ (items : List Key) (acc : MState × List Key × List Key) (k : Key),
      (k ∈ (items.foldl (classify_step probe) acc).2.1
          ∨ k ∈ (items.foldl (classify_step probe) acc).2.2) →
      (k ∈ acc.2.1 ∨ k ∈ acc.2.2) ∨ k ∈ items := by
  intro items
  induction items with
  | nil => intro acc k h; exact Or.inl h
  | cons k0 rest ih =>
    intro acc k h
    rw [List.foldl_cons] at h
    rcases ih (classify_step probe acc k0) k h with h' | h'
    · have hstep : (classify_step probe acc k0).2.1 = acc.2.1
          ∧ (classify_step probe acc k0).2.2 = acc.2.2 ++ [k0]
          ∨ (classify_step probe acc k0).2.1 = acc.2.1 ++ [k0]
          ∧ (classify_step probe acc k0).2.2 = acc.2.2 := by
        simp only [classify_step]
        cases hr : (is_pull_request probe acc.1 k0).1 <;> simp [hr]
      rcases hstep with ⟨ha, hb⟩ | ⟨ha, hb⟩ <;> rw [ha, hb] at h'
      · rcases h' with h'' | h''
        · exact Or.inl (Or.inl h'')
        · rcases List.mem_append.mp h'' with h3 | h3
          · exact Or.inl (Or.inr h3)
          · exact Or.inr (List.mem_singleton.mp h3 ▸ List.mem_cons_self k0 rest)
      · rcases h' with h'' | h''
        · rcases List.mem_append.mp h'' with h3 | h3
          · exact Or.inl (Or.inl h3)
          · exact Or.inr (List.mem_singleton.mp h3 ▸ List.mem_cons_self k0 rest)
        · exact Or.inl (Or.inr h'')
    · exact Or.inr (List.mem_cons_of_mem k0 h')

/-- Field transport across the classification: `active` is untouched,
directories are never removed, a created directory belongs to a scanned
item, and a readable cached type stays readable. -/
theorem classify_fields (probe : Key → Bool) (st : MState) (items : List Key) (k : Key) :
    ((fsGet (classify_items probe st items).1.fs k).active = (fsGet st.fs k).active)
    ∧ ((fsGet st.fs k).dirExists = true →
        (fsGet (classify_items probe st items).1.fs k).dirExists = true)
    ∧ ((fsGet (classify_items probe st items).1.fs k).dirExists = true →
        (fsGet st.fs k).dirExists = true ∨ k ∈ items)
    ∧ (get_type_from_file st.fs k ≠ none →
        get_type_from_file (classify_items probe st items).1.fs k ≠ none) := by
  rcases classify_items_fsGet probe st items k with h | ⟨hm, v, hv, h⟩
  · refine ⟨by rw [h], fun h' => by rw [h]; exact h', fun h' => ?_, fun h' => ?_⟩
    · rw [h] at h'
      exact Or.inl h'
    · rw [get_type_eq_of_same_typeFile _ st.fs k (by rw [h])]
      exact h'
  · refine ⟨by rw [h], fun _ => by rw [h], fun _ => Or.inr hm, fun _ => ?_⟩
    have htf : (fsGet (classify_items probe st items).1.fs k).typeFile
        = some (plower v) := by rw [h]
    rw [get_type_eq_of_typeFile _ k v hv htf]
    simp

/-- Field transport across one update pass: the cached type and the active
flag are untouched, directories are never removed, and a created directory
belongs to an active item. -/
theorem process_fields (pk dr : Bool) (t : String)
    (openF : String → List (String × Item)) (st : MState) (active : List Key) (k : Key) :
    ((fsGet (process_active_issues pk dr t openF st active).fs k).typeFile
        = (fsGet st.fs k).typeFile)
    ∧ ((fsGet (process_active_issues pk dr t openF st active).fs k).active
        = (fsGet st.fs k).active)
    ∧ ((fsGet st.fs k).dirExists = true →
        (fsGet (process_active_issues pk dr t openF st active).fs k).dirExists = true)
    ∧ ((fsGet (process_active_issues pk dr t openF st active).fs k).dirExists = true →
        (fsGet st.fs k).dirExists = true ∨ k ∈ active) := by
  rcases process_active_issues_fsGet pk dr t openF st active k with h | ⟨hm, h⟩
  · refine ⟨by rw [h], by rw [h], fun h' => by rw [h]; exact h', fun h' => ?_⟩
    rw [h] at h'
    exact Or.inl h'
  · exact ⟨by rw [h], by rw [h], fun _ => by rw [h], fun _ => Or.inr hm⟩

/-- Field transport across one comment pass: directory existence, the
active flag and the cached type are all untouched. -/
theorem comments_fields (pk dr : Bool) (kind : CKind) (t : String)
    (commentsF : String → Except Unit (List (String × List Comment)))
    (st : MState) (active : List Key) (k : Key) :
    ((fsGet (monitor_comments pk dr kind t commentsF st active).fs k).dirExists
        = (fsGet st.fs k).dirExists)
    ∧ ((fsGet (monitor_comments pk dr kind t commentsF st active).fs k).active
        = (fsGet st.fs k).active)
    ∧ ((fsGet (monitor_comments pk dr kind t commentsF st active).fs k).typeFile
        = (fsGet st.fs k).typeFile) := by
  rcases monitor_comments_fsGet pk dr kind t commentsF st active k with h | ⟨_, h⟩
  · exact ⟨by rw [h], by rw [h], by rw [h]⟩
  · obtain ⟨h1, h2, h3⟩ := setCommentFld_fields (fsGet st.fs k) kind t
    exact ⟨by rw [h, h1], by rw [h, h2], by rw [h, h3]⟩

/-- Discovery never removes a directory. -/
theorem monitor_repositories_dirEx_mono (pk dr : Bool) (t : String)
    (repos : List String) (openF : String → List (String × Item)) (st : MState) (k : Key)
    (h : (fsGet st.fs k).dirExists = true) :
    (fsGet (monitor_repositories pk dr t repos openF st).fs k).dirExists = true := by
  unfold monitor_repositories
  refine foldl_preserve (fun s => (fsGet s.fs k).dirExists = true) _ ?_ repos st h
  intro s repo hs
  exact foldl_preserve (fun s' => (fsGet s'.fs k).dirExists = true) _
    (fun s' e h' => discover_item_dirEx_mono pk dr t repo s' e k h') (openF repo) s hs

/-- A guarded phase extends the write log exactly when the phase does. -/
theorem writesExt_if (Q : WriteRec → Prop) (b : Bool) (s s' : MState)
    (h : WritesExt Q s s') : WritesExt Q s (if b = true then s' else s) := by
  cases b with
  | true => rw [if_pos rfl]; exact h
  | false => rw [if_neg (by simp)]; exact writesExt_refl Q s

/-- Names for the intermediate states of one monitoring cycle, with their
defining equations. -/
theorem cycle_decomp (a : Args) (w : World) (st : MState) :
    ∃ S1 S2 SCN CLS S4 S5 S6 S7,
      S1 = (if a.monitor_issues = true then
          monitor_repositories w.publishOk a.dry_run w.tDiscIssues a.repositories
            w.discoverIssues st
        else st)
      ∧ S2 = (if a.monitor_prs = true then
          monitor_repositories w.publishOk a.dry_run w.tDiscPrs a.repositories
            w.discoverPrs S1
        else S1)
      ∧ SCN = (if (a.monitor_issues || a.monitor_prs || a.monitor_issue_comments
            || a.monitor_pr_comments) = true then
          find_active_issues S2.fs a.active_only a.repositories
        else [])
      ∧ CLS = (if SCN.isEmpty = true then (S2, ([] : List Key), ([] : List Key))
          else classify_items w.probeIsPr S2 SCN)
      ∧ S4 = (if (a.monitor_issues && !CLS.2.1.isEmpty) = true then
          process_active_issues w.publishOk a.dry_run w.tProcIssues w.openIssues CLS.1 CLS.2.1
        else CLS.1)
      ∧ S5 = (if (a.monitor_prs && !CLS.2.2.isEmpty) = true then
          process_active_issues w.publishOk a.dry_run w.tProcPrs w.openPrs S4 CLS.2.2
        else S4)
      ∧ S6 = (if (a.monitor_issue_comments && !CLS.2.1.isEmpty) = true then
          monitor_comments w.publishOk a.dry_run CKind.issue w.tComIssues w.issueComments
            S5 CLS.2.1
        else S5)
      ∧ S7 = (if (a.monitor_pr_comments && !CLS.2.2.isEmpty) = true then
          monitor_comments w.publishOk a.dry_run CKind.pr w.tComPrs w.prComments S6 CLS.2.2
        else S6)
      ∧ run_monitoring_cycle a w st = S7 :=
  ⟨_, _, _, _, _, _, _, _, rfl, rfl, rfl, rfl, rfl, rfl, rfl, rfl, rfl⟩

/-- One cycle that is not a dry run leaves the tree in a self-sustaining
shape: every discovered item of an enabled discovery kind has a directory,
and every directory the next active scan would select has a readable
cached `.type`. -/
theorem cycle_good (a : Args) (w : World) (st : MState) (hdr : a.dry_run = false) :
    (a.monitor_issues = true → ∀ repo ∈ a.repositories, ∀ e ∈ w.discoverIssues repo,
      (fsGet (run_monitoring_cycle a w st).fs (repo, e.1)).dirExists = true)
    ∧ (a.monitor_prs = true → ∀ repo ∈ a.repositories, ∀ e ∈ w.discoverPrs repo,
      (fsGet (run_monitoring_cycle a w st).fs (repo, e.1)).dirExists = true)
    ∧ (∀ k, (a.monitor_issues || a.monitor_prs || a.monitor_issue_comments
          || a.monitor_pr_comments) = true →
        (fsGet (run_monitoring_cycle a w st).fs k).dirExists = true →
        a.repositories.contains k.1 = true →
        (!a.active_only || (fsGet (run_monitoring_cycle a w st).fs k).active) = true →
        get_type_from_file (run_monitoring_cycle a w st).fs k ≠ none) := by
  obtain ⟨S1, S2, SCN, CLS, S4, S5, S6, S7, h1, h2, hscn, hcls, h4, h5, h6, h7, hcyc⟩ :=
    cycle_decomp a w st
  rw [hcyc]
  have h76 : ∀ k, (fsGet S7.fs k).dirExists = (fsGet S6.fs k).dirExists
      ∧ (fsGet S7.fs k).active = (fsGet S6.fs k).active
      ∧ (fsGet S7.fs k).typeFile = (fsGet S6.fs k).typeFile := by
    intro k
    rw [h7]
    split
    · exact comments_fields _ _ _ _ _ _ _ k
    · exact ⟨rfl, rfl, rfl⟩
  have h65 : ∀ k, (fsGet S6.fs k).dirExists = (fsGet S5.fs k).dirExists
      ∧ (fsGet S6.fs k).active = (fsGet S5.fs k).active
      ∧ (fsGet S6.fs k).typeFile = (fsGet S5.fs k).typeFile := by
    intro k
    rw [h6]
    split
    · exact comments_fields _ _ _ _ _ _ _ k
    · exact ⟨rfl, rfl, rfl⟩
  have h54 : ∀ k, (fsGet S5.fs k).typeFile = (fsGet S4.fs k).typeFile
      ∧ (fsGet S5.fs k).active = (fsGet S4.fs k).active
      ∧ ((fsGet S4.fs k).dirExists = true → (fsGet S5.fs k).dirExists = true)
      ∧ ((fsGet S5.fs k).dirExists = true →
          (fsGet S4.fs k).dirExists = true ∨ k ∈ CLS.2.2) := by
    intro k
    rw [h5]
    split
    · exact process_fields w.publishOk a.dry_run w.tProcPrs w.openPrs S4 CLS.2.2 k
    · exact ⟨rfl, rfl, fun h => h, fun h => Or.inl h⟩
  have h43 : ∀ k, (fsGet S4.fs k).typeFile = (fsGet CLS.1.fs k).typeFile
      ∧ (fsGet S4.fs k).active = (fsGet CLS.1.fs k).active
      ∧ ((fsGet CLS.1.fs k).dirExists = true → (fsGet S4.fs k).dirExists = true)
      ∧ ((fsGet S4.fs k).dirExists = true →
          (fsGet CLS.1.fs k).dirExists = true ∨ k ∈ CLS.2.1) := by
    intro k
    rw [h4]
    split
    · exact process_fields w.publishOk a.dry_run w.tProcIssues w.openIssues CLS.1 CLS.2.1 k
    · exact ⟨rfl, rfl, fun h => h, fun h => Or.inl h⟩
  have hup : ∀ k, (fsGet CLS.1.fs k).dirExists = true →
      (fsGet S7.fs k).dirExists = true := by
    intro k hk
    rw [(h76 k).1, (h65 k).1]
    exact (h54 k).2.2.1 ((h43 k).2.2.1 hk)
  have hup2 : ∀ k, (fsGet S2.fs k).dirExists = true →
      (fsGet CLS.1.fs k).dirExists = true := by
    intro k hk
    rw [hcls]
    cases he : SCN.isEmpty with
    | true => rw [if_pos rfl]; exact hk
    | false =>
      rw [if_neg (by simp)]
      exact (classify_fields w.probeIsPr S2 SCN k).2.1 hk
  have htyup : ∀ k, get_type_from_file CLS.1.fs k ≠ none →
      get_type_from_file S7.fs k ≠ none := by
    intro k hk
    rw [get_type_eq_of_same_typeFile S7.fs S6.fs k (h76 k).2.2,
      get_type_eq_of_same_typeFile S6.fs S5.fs k (h65 k).2.2,
      get_type_eq_of_same_typeFile S5.fs S4.fs k (h54 k).1,
      get_type_eq_of_same_typeFile S4.fs CLS.1.fs k (h43 k).1]
    exact hk
  have hmemty : ∀ k, (k ∈ CLS.2.1 ∨ k ∈ CLS.2.2) →
      get_type_from_file CLS.1.fs k ≠ none := by
    intro k hk
    cases he : SCN.isEmpty with
    | true =>
      have hcls' : CLS = (S2, ([] : List Key), ([] : List Key)) := by
        rw [hcls, he, if_pos rfl]
      rw [hcls'] at hk
      rcases hk with hk | hk <;> simp at hk
    | false =>
      have hcls' : CLS = classify_items w.probeIsPr S2 SCN := by
        rw [hcls, he, if_neg (by simp)]
      rw [hcls'] at hk ⊢
      unfold classify_items at hk ⊢
      have hksc : k ∈ SCN := by
        rcases classify_foldl_mem w.probeIsPr SCN (S2, [], []) k hk with h' | h'
        · rcases h' with h' | h' <;> simp at h'
        · exact h'
      exact classify_foldl_types w.probeIsPr SCN (S2, [], []) k hksc
  refine ⟨?_, ?_, ?_⟩
  · intro hmi repo hr e he
    have hS1 : S1 = monitor_repositories w.publishOk a.dry_run w.tDiscIssues
        a.repositories w.discoverIssues st := by
      rw [h1, if_pos hmi]
    have hc : (fsGet S1.fs (repo, e.1)).dirExists = true := by
      rw [hS1, hdr]
      exact monitor_repositories_covers w.publishOk w.tDiscIssues w.discoverIssues
        a.repositories st repo e hr he
    have hc2 : (fsGet S2.fs (repo, e.1)).dirExists = true := by
      rw [h2]
      split
      · exact monitor_repositories_dirEx_mono _ _ _ _ _ S1 _ hc
      · exact hc
    exact hup _ (hup2 _ hc2)
  · intro hmp repo hr e he
    have hS2 : S2 = monitor_repositories w.publishOk a.dry_run w.tDiscPrs
        a.repositories w.discoverPrs S1 := by
      rw [h2, if_pos hmp]
    have hc2 : (fsGet S2.fs (repo, e.1)).dirExists = true := by
      rw [hS2, hdr]
      exact monitor_repositories_covers w.publishOk w.tDiscPrs w.discoverPrs
        a.repositories S1 repo e hr he
    exact hup _ (hup2 _ hc2)
  · intro k hneed hdx hcont hact
    have hdx5 : (fsGet S5.fs k).dirExists = true := by
      rw [← (h65 k).1, ← (h76 k).1]
      exact hdx
    have hact5 : (!a.active_only || (fsGet S5.fs k).active) = true := by
      rw [← (h65 k).2.1, ← (h76 k).2.1]
      exact hact
    rcases (h54 k).2.2.2 hdx5 with hdx4 | hmem
    · rcases (h43 k).2.2.2 hdx4 with hdx3 | hmem
      · have hae : (fsGet CLS.1.fs k).active = (fsGet S5.fs k).active := by
          rw [(h54 k).2.1, (h43 k).2.1]
        have hact3 : (!a.active_only || (fsGet CLS.1.fs k).active) = true := by
          rw [hae]
          exact hact5
        cases he : SCN.isEmpty with
        | false =>
          have hcls' : CLS = classify_items w.probeIsPr S2 SCN := by
            rw [hcls, he, if_neg (by simp)]
          have hsplit : (fsGet S2.fs k).dirExists = true ∨ k ∈ SCN := by
            rw [hcls'] at hdx3
            exact (classify_fields w.probeIsPr S2 SCN k).2.2.1 hdx3
          rcases hsplit with hdx2 | hkscn
          · have hae2 : (fsGet CLS.1.fs k).active = (fsGet S2.fs k).active := by
              rw [hcls']
              exact (classify_fields w.probeIsPr S2 SCN k).1
            have hact2 : (!a.active_only || (fsGet S2.fs k).active) = true := by
              rw [← hae2]
              exact hact3
            have hkscn : k ∈ SCN := by
              rw [hscn, hneed, if_pos rfl]
              exact find_active_issues_complete S2.fs a.active_only a.repositories k
                hdx2 hcont hact2
            refine htyup k ?_
            rw [hcls']
            unfold classify_items
            exact classify_foldl_types w.probeIsPr SCN (S2, [], []) k hkscn
          · refine htyup k ?_
            rw [hcls']
            unfold classify_items
            exact classify_foldl_types w.probeIsPr SCN (S2, [], []) k hkscn
        | true =>
          have hcls' : CLS = (S2, ([] : List Key), ([] : List Key)) := by
            rw [hcls, he, if_pos rfl]
          have hdx2 : (fsGet S2.fs k).dirExists = true := by
            rw [hcls'] at hdx3
            exact hdx3
          have hact2 : (!a.active_only || (fsGet S2.fs k).active) = true := by
            have hae2 : (fsGet CLS.1.fs k).active = (fsGet S2.fs k).active := by
              rw [hcls']
            rw [← hae2]
            exact hact3
          have hkscn : k ∈ SCN := by
            rw [hscn, hneed, if_pos rfl]
            exact find_active_issues_complete S2.fs a.active_only a.repositories k
              hdx2 hcont hact2
          rw [List.isEmpty_iff] at he
          rw [he] at hkscn
          cases hkscn
      · exact htyup k (hmemty k (Or.inl hmem))
    · exact htyup k (hmemty k (Or.inr hmem))

/-- From a state where every discovered item of an enabled kind already has
a directory and every scannable directory has a readable cached `.type`, a
cycle that is not a dry run writes no `.type` record at all. -/
theorem cycle_no_type_writes (a : Args) (w : World) (sg : MState)
    (hg1 : a.monitor_issues = true → ∀ repo ∈ a.repositories,
      ∀ e ∈ w.discoverIssues repo, (fsGet sg.fs (repo, e.1)).dirExists = true)
    (hg2 : a.monitor_prs = true → ∀ repo ∈ a.repositories,
      ∀ e ∈ w.discoverPrs repo, (fsGet sg.fs (repo, e.1)).dirExists = true)
    (hg3 : ∀ k, (a.monitor_issues || a.monitor_prs || a.monitor_issue_comments
          || a.monitor_pr_comments) = true →
        (fsGet sg.fs k).dirExists = true →
        a.repositories.contains k.1 = true →
        (!a.active_only || (fsGet sg.fs k).active) = true →
        get_type_from_file sg.fs k ≠ none) :
    WritesExt (fun r => r.file ≠ MFile.typeF) sg (run_monitoring_cycle a w sg) := by
  obtain ⟨S1, S2, SCN, CLS, S4, S5, S6, S7, h1, h2, hscn, hcls, h4, h5, h6, h7, hcyc⟩ :=
    cycle_decomp a w sg
  have e1 : S1 = sg := by
    rw [h1]
    cases hmi : a.monitor_issues with
    | false => rw [if_neg (by simp)]
    | true =>
      rw [if_pos rfl]
      exact monitor_repositories_id _ _ _ _ _ sg (hg1 hmi)
  have e2 : S2 = sg := by
    rw [h2, e1]
    cases hmp : a.monitor_prs with
    | false => rw [if_neg (by simp)]
    | true =>
      rw [if_pos rfl]
      exact monitor_repositories_id _ _ _ _ _ sg (hg2 hmp)
  have hSCNty : ∀ k ∈ SCN, get_type_from_file sg.fs k ≠ none := by
    intro k hk
    rw [hscn, e2] at hk
    cases hnb : (a.monitor_issues || a.monitor_prs || a.monitor_issue_comments
        || a.monitor_pr_comments) with
    | false =>
      rw [hnb, if_neg (by simp)] at hk
      cases hk
    | true =>
      rw [hnb, if_pos rfl] at hk
      obtain ⟨hx1, hx2, hx3⟩ :=
        find_active_issues_mem sg.fs a.active_only a.repositories k hk
      exact hg3 k hnb hx1 hx2 hx3
  have e3 : CLS.1 = sg := by
    rw [hcls]
    cases he : SCN.isEmpty with
    | true =>
      rw [if_pos rfl]
      exact e2
    | false =>
      rw [if_neg (by simp), e2]
      exact classify_items_fst_of_types w.probeIsPr sg SCN hSCNty
  rw [hcyc, h7, h6, h5, h4, e3]
  refine writesExt_trans _ (writesExt_trans _ (writesExt_trans _
      (writesExt_if _ _ _ _ ?_) (writesExt_if _ _ _ _ ?_))
      (writesExt_if _ _ _ _ ?_)) (writesExt_if _ _ _ _ ?_)
  · exact process_active_issues_writesExt _ _ _ _ _ _ _ (fun k1 k2 => by simp)
  · exact process_active_issues_writesExt _ _ _ _ _ _ _ (fun k1 k2 => by simp)
  · exact monitor_comments_writesExt _ _ _ _ _ _ _ _ (fun k1 k2 => by simp [cfile])
  · exact monitor_comments_writesExt _ _ _ _ _ _ _ _ (fun k1 k2 => by simp [cfile])

/-- C9: for every `(repository, number)`, the `.type` classification file
is written at most once and never overwritten afterwards: discovery leaves
every existing item directory untouched and only writes records for items
whose directory did not exist, `is_pull_request` answers from a readable
cached `.type` without any write, and running the monitoring cycle twice
in immediate succession (not a dry run) produces no `.type` write at all
during the second cycle. -/
theorem C9_type_written_once (a : Args) (w : World) (st : MState)
    (hdr : a.dry_run = false) :
    (∀ (pk dr : Bool) (t : String) (repos : List String)
        (openF : String → List (String × Item)) (s : MState),
      (∀ k, (fsGet s.fs k).dirExists = true →
        fsGet (monitor_repositories pk dr t repos openF s).fs k = fsGet s.fs k)
      ∧ WritesExt (fun r => (fsGet s.fs (r.repo, r.number)).dirExists = false) s
          (monitor_repositories pk dr t repos openF s))
    ∧ (∀ (probe : Key → Bool) (s : MState) (k : Key) (v : String),
        get_type_from_file s.fs k = some v →
        is_pull_request probe s k = ((v == "pr"), s))
    ∧ WritesExt (fun r => r.file ≠ MFile.typeF) (run_monitoring_cycle a w st)
        (run_monitoring_cycle a w (run_monitoring_cycle a w st)) := by
  refine ⟨?_, ?_, ?_⟩
  · intro pk dr t repos openF s
    exact monitor_repositories_untouched pk dr t repos openF s
  · intro probe s k v h
    exact is_pull_request_cached probe s k v h
  · obtain ⟨hg1, hg2, hg3⟩ := cycle_good a w st hdr
    exact cycle_no_type_writes a w (run_monitoring_cycle a w st) hg1 hg2 hg3

/-- Witness for C9 at a concrete configuration, world and empty start
state, with the non-dry-run hypothesis discharged by computation. -/
theorem C9_type_written_once_witness :
    (⟨["o/r"], false, true, true, true, true, false⟩ : Args).dry_run = false
    ∧ ((∀ (pk dr : Bool) (t : String) (repos : List String)
        (openF : String → List (String × Item)) (s : MState),
      (∀ k, (fsGet s.fs k).dirExists = true →
        fsGet (monitor_repositories pk dr t repos openF s).fs k = fsGet s.fs k)
      ∧ WritesExt (fun r => (fsGet s.fs (r.repo, r.number)).dirExists = false) s
          (monitor_repositories pk dr t repos openF s))
    ∧ (∀ (probe : Key → Bool) (s : MState) (k : Key) (v : String),
        get_type_from_file s.fs k = some v →
        is_pull_request probe s k = ((v == "pr"), s))
    ∧ WritesExt (fun r => r.file ≠ MFile.typeF)
        (run_monitoring_cycle ⟨["o/r"], false, true, true, true, true, false⟩
          ⟨fun _ => [], fun _ => [], fun _ => [], fun _ => [], fun _ => Except.ok [],
            fun _ => Except.ok [], fun _ => false, true, "t1", "t2", "t3", "t4", "t5", "t6"⟩
          ⟨[], [], []⟩)
        (run_monitoring_cycle ⟨["o/r"], false, true, true, true, true, false⟩
          ⟨fun _ => [], fun _ => [], fun _ => [], fun _ => [], fun _ => Except.ok [],
            fun _ => Except.ok [], fun _ => false, true, "t1", "t2", "t3", "t4", "t5", "t6"⟩
          (run_monitoring_cycle ⟨["o/r"], false, true, true, true, true, false⟩
            ⟨fun _ => [], fun _ => [], fun _ => [], fun _ => [], fun _ => Except.ok [],
              fun _ => Except.ok [], fun _ => false, true, "t1", "t2", "t3", "t4", "t5", "t6"⟩
            ⟨[], [], []⟩))) :=
  ⟨rfl, C9_type_written_once ⟨["o/r"], false, true, true, true, true, false⟩
    ⟨fun _ => [], fun _ => [], fun _ => [], fun _ => [], fun _ => Except.ok [],
      fun _ => Except.ok [], fun _ => false, true, "t1", "t2", "t3", "t4", "t5", "t6"⟩
    ⟨[], [], []⟩ rfl⟩
